import Mathlib

/-
  Verification development for the nutmeg-run virtual machine.

  Shallow embedding of:
    - the tagged 64-bit cell representation (src/value.hpp),
    - the CellStack fixed-capacity stack (src/cell_stack.hpp),
    - the binary integer sys-functions (src/sys_maths.cpp),
    - the threaded interpreter Machine::threaded_impl and its helpers
      (src/machine.cpp),
    - the two planters: Machine::parse_function_object (src/machine.cpp)
      and ParseFunctionObject (src/parse_function_object.cpp).

  Machine words are modelled as an inductive `Cell`: bit patterns are kept
  as `Nat` (reduced mod 2^64 where the C++ wraps), and the pointer-valued
  union members (handler label addresses, Ident*, sys-function pointers,
  heap object pointers, code return addresses) are modelled as symbolic
  constructors, since their numeric values are never inspected by the
  source except as opaque addresses.
-/

namespace Nutmeg

/-- Two to the sixty-fourth, the modulus of a 64-bit machine word. -/
def W64 : Nat := 2 ^ 64

/-- Interpret a 64-bit pattern as a signed two's-complement int64_t. -/
def toInt64 (u : Nat) : Int :=
  if u % W64 < 2 ^ 63 then ((u % W64 : Nat) : Int) else ((u % W64 : Nat) : Int) - (W64 : Int)

/-- Store a signed integer as a 64-bit two's-complement pattern
(the effect of casting an int64_t to uint64_t). -/
def ofInt64 (i : Int) : Nat :=
  (i.emod (W64 : Int)).toNat

/-- make_tagged_int (value.hpp): `c.u64 = static_cast<uint64_t>(value) << 2`. -/
def make_tagged_int (v : Int) : Nat :=
  ofInt64 (4 * v)

/-- as_detagged_int (value.hpp): arithmetic right shift of the pattern by 2,
which is floor division of the signed value by 4. -/
def as_detagged_int (u : Nat) : Int :=
  Int.fdiv (toInt64 u) 4

/-- is_tagged_int (value.hpp): bits 0-1 are 00. -/
def is_tagged_int_bits (u : Nat) : Bool :=
  u % 4 == 0

/-- make_tagged_float (value.hpp): the double's IEEE-754 bit pattern `b`
is stored as `(b << 2) | TAG_FLOAT` in a 64-bit word.  The shift is a
64-bit shift, so the two HIGH bits of the pattern are discarded. -/
def make_tagged_float_bits (b : Nat) : Nat :=
  ((b * 4) % W64) ||| 2

/-- as_detagged_float (value.hpp): logical right shift of the stored word
by 2 recovers a 62-bit pattern (zero-extended to 64 bits). -/
def as_detagged_float_bits (c : Nat) : Nat :=
  c / 4

/-- Finiteness of an IEEE-754 double, on its bit pattern: the 11 exponent
bits (bits 52-62) are not all ones. -/
def isFiniteDoubleBits (b : Nat) : Bool :=
  (b / 2 ^ 52) % 2 ^ 11 != 2 ^ 11 - 1

/-- SPECIAL_FALSE (value.hpp). -/
def SPECIAL_FALSE : Nat := 0x7
/-- SPECIAL_TRUE (value.hpp). -/
def SPECIAL_TRUE : Nat := 0xF
/-- SPECIAL_NIL (value.hpp). -/
def SPECIAL_NIL : Nat := 0x17

/-! ## CellStack (src/cell_stack.hpp)

The fixed-capacity stack.  The backing array is a total function from
indices to abstract cell payloads (payload type is irrelevant to the
bounds claims, we use `Nat`); `size` is `top_ - base_` and `capacity`
is the array length fixed at construction.  Each operation returns the
new stack together with the list of raw array indices it read or wrote,
or the runtime error the C++ throws. -/

structure CellStack where
  capacity : Nat
  size : Nat
  data : Nat → Nat

/-- The CellStack operations, as an inductive of requests. -/
inductive StackOp where
  | push (v : Nat)
  | pop
  | peek
  | peekAt (i : Nat)
  | popMultiple (k : Nat)
  | resize (k : Nat)
  | offsetFromTop (k : Nat)

/-- One CellStack operation (cell_stack.hpp).  Pointer comparisons such as
`top_ - count < base_` are modelled as the corresponding integer
comparisons on `size`.  The result carries the raw indices into the
backing array that the operation read or wrote. -/
def cellStackRun (s : CellStack) : StackOp → Except String (CellStack × List Nat)
  | .push v =>
      if s.size ≥ s.capacity then .error "Stack overflow"
      else .ok ({ s with size := s.size + 1,
                         data := fun i => if i = s.size then v else s.data i }, [s.size])
  | .pop =>
      if s.size = 0 then .error "Stack underflow"
      else .ok ({ s with size := s.size - 1 }, [s.size - 1])
  | .peek =>
      if s.size = 0 then .error "Stack is empty"
      else .ok (s, [s.size - 1])
  | .peekAt i =>
      if i ≥ s.size then .error "Stack index out of bounds"
      else .ok (s, [i])
  | .popMultiple k =>
      if (s.size : Int) - (k : Int) < 0 then .error "Stack underflow"
      else .ok ({ s with size := s.size - k }, [])
  | .resize k =>
      if k > s.capacity then .error "Stack resize exceeds capacity"
      else .ok ({ s with size := k }, [])
  | .offsetFromTop k =>
      if (s.size : Int) - (k : Int) ≤ 0 then .error "Stack offset out of bounds"
      else .ok (s, [s.size - k - 1])

/-! ## Cells, handlers and machine state (src/machine.cpp, src/value.hpp)

`Cell` is the 64-bit union.  Plain bit patterns (tagged ints, tagged
floats, the special singletons, raw i64 operands) are `bits`.  Pointer
members are symbolic: `taggedPtr f` is a tagged pointer (low bits 001)
to heap function object number `f`; `strPtr s` is a tagged pointer to a
heap string allocated for literal `s`; `handlerAddr` is a captured
handler label address; `identPtr` a raw `Ident*`; `sysPtr` a raw
sys-function pointer; `rawFuncPtr` an untagged function object pointer
(frame slot / LAUNCH operand); `codePtr f i` a raw pointer to word `i`
of function `f`'s threaded code (a return address). -/

/-- Handler labels captured by Machine::threaded_impl in init mode, plus
the label that exists in the function body without being mapped
(L_IN_PROGRESS).  The last three constructors stand for handler label
addresses for GOTO, IF_NOT and CHECK_BOOL: the planter in
parse_function_object.cpp plants such opcodes through whatever opcode
map the machine supplies, but machine.cpp's threaded_impl contains no
labels for them, so executing one is undefined in the model. -/
inductive Handler where
  | push_int | push_string | pop_local | push_local
  | in_progress | done | push_global_lazy | push_global
  | call_global_counted_lazy | call_global_counted
  | syscall_counted | stack_length | ret | halt | launch
  | goto_label | if_not_label | check_bool_label
deriving DecidableEq, Repr

/-- Names in the sysfunctions_table (src/sysfunctions.cpp) whose
definitions are present under src/ (sys_identical and
sys_not_identical have no definition in the sources). -/
inductive SysName where
  | println | add | subtract | multiply | divide | negate
  | less_than | greater_than | less_equal | greater_equal
deriving DecidableEq, Repr

/-- The 64-bit machine word (union Cell, src/value.hpp). -/
inductive Cell where
  | bits (v : Nat)
  | taggedPtr (f : Nat)
  | strPtr (s : String)
  | handlerAddr (h : Handler)
  | identPtr (i : Nat)
  | sysPtr (s : SysName)
  | rawFuncPtr (f : Nat)
  | codePtr (f : Nat) (i : Nat)
deriving DecidableEq, Repr

/-- A raw i64 instruction operand (make_raw_i64; definition absent from
src/, used to build raw offset operand cells — it stores the int64 into
the cell's i64 member). -/
def rawI64 (i : Int) : Cell :=
  .bits (ofInt64 i)

/-- Reading the `.i64` member of a cell.  Only plain bit patterns have
determinate integer contents in the model; reading `.i64` of a
pointer-valued cell would expose an address and is left undefined. -/
def Cell.i64 : Cell → Option Int
  | .bits v => some (toInt64 v)
  | _ => none

/-- is_tagged_int on a cell.  Tagged and raw pointers have low bits 001
(8-byte aligned addresses OR 1), so the predicate is false on them;
symbolic pointer members whose low bits the model does not know never
reach this predicate in the verified runs. -/
def Cell.isTaggedInt : Cell → Bool
  | .bits v => is_tagged_int_bits v
  | _ => false

/-- as_detagged_int on a cell (guarded by isTaggedInt at all use sites). -/
def Cell.asInt : Cell → Int
  | .bits v => as_detagged_int v
  | _ => 0

/-- is_bool on a cell. -/
def Cell.isBool : Cell → Bool
  | .bits v => v == SPECIAL_FALSE || v == SPECIAL_TRUE
  | _ => false

/-- is_tagged_ptr on a cell: true of the symbolic tagged heap pointers,
and of a bit pattern with low bits 001. -/
def Cell.isTaggedPtr : Cell → Bool
  | .taggedPtr _ => true
  | .strPtr _ => true
  | .bits v => v % 8 == 1
  | _ => false

/-- make_nil. -/
def nilCell : Cell := .bits SPECIAL_NIL

/-- A global Ident record: {cell, lazy, in_progress} (src/machine.hpp). -/
structure Ident where
  cell : Cell
  lazy : Bool
  in_progress : Bool
deriving DecidableEq, Repr

/-- A heap function object: nlocals and nparams as unpacked by
Heap::get_function_nlocals / get_function_nparams (16-bit fields), and
the threaded code words (mutable: lazy-promotion rewrites them). -/
structure FuncObj where
  nlocals : Nat
  nparams : Nat
  code : List Cell
deriving DecidableEq, Repr

/-- The machine state: operand stack and return stack (std::vector,
last element = top), the Ident arena (globals_ values, indexed by
allocation order), and the heap's function objects. -/
structure Machine where
  operand_stack : List Cell
  return_stack : List Cell
  idents : List Ident
  funcs : List FuncObj
deriving DecidableEq, Repr

/-- A position in threaded code: function object index and word index.
The launcher vector built by Machine::execute is modelled as a function
object like any other code array. -/
abbrev CodeAddr := Nat × Nat

/-- Fetch the code word at a code address. -/
def fetch (m : Machine) (f i : Nat) : Option Cell :=
  (m.funcs.get? f).bind fun fo => fo.code.get? i

/-- Write the code word at a code address (the self-modifying store in
the lazy handlers). -/
def setCode (m : Machine) (f i : Nat) (c : Cell) : Machine :=
  { m with funcs := m.funcs.modify (fun fo => { fo with code := fo.code.set i c }) f }

/-- Overwrite an Ident in the arena. -/
def setIdent (m : Machine) (j : Nat) (id : Ident) : Machine :=
  { m with idents := m.idents.set j id }

/-- Machine::push. -/
def pushOp (m : Machine) (v : Cell) : Machine :=
  { m with operand_stack := m.operand_stack ++ [v] }

/-- Machine::push_return. -/
def pushReturn (m : Machine) (v : Cell) : Machine :=
  { m with return_stack := m.return_stack ++ [v] }

/-- Machine::pop: underflow check then pop_back. -/
def popOp (m : Machine) : Except String (Cell × Machine) :=
  match m.operand_stack.getLast? with
  | none => .error "Stack underflow"
  | some v => .ok (v, { m with operand_stack := m.operand_stack.dropLast })

/-- Machine::peek: reads the top without removing it. -/
def peekOp (m : Machine) : Except String Cell :=
  match m.operand_stack.getLast? with
  | none => .error "Stack is empty"
  | some v => .ok v

/-- Writing through the reference returned by Machine::peek
(`machine.peek() = result` in binary_int_operation). -/
def peekSet (m : Machine) (v : Cell) : Machine :=
  { m with operand_stack := m.operand_stack.dropLast ++ [v] }

/-- Machine::pop_return. -/
def popReturn (m : Machine) : Except String (Cell × Machine) :=
  match m.return_stack.getLast? with
  | none => .error "Return stack underflow"
  | some v => .ok (v, { m with return_stack := m.return_stack.dropLast })

/-- Machine::get_local_variable: `return_stack_[return_stack_.size() - offset]`.
An out-of-range index is an out-of-bounds vector access; `none` marks it. -/
def getLocal (rs : List Cell) (offset : Int) : Option Cell :=
  let idx : Int := (rs.length : Int) - offset
  if 0 ≤ idx ∧ idx < (rs.length : Int) then rs.get? idx.toNat else none

/-- Writing through the reference returned by Machine::get_local_variable
(the STACK_LENGTH handler). -/
def setLocal (rs : List Cell) (offset : Int) (v : Cell) : Option (List Cell) :=
  let idx : Int := (rs.length : Int) - offset
  if 0 ≤ idx ∧ idx < (rs.length : Int) then some (rs.set idx.toNat v) else none

/-- Heap::is_function_object on a detagged heap pointer: the object's
datakey slot holds FunctionDatakey.  In the model the function arena
holds exactly the allocated function objects, so validity of the index
is the datakey test. -/
def isFunctionObject (m : Machine) (f : Nat) : Bool :=
  f < m.funcs.length

/-- Heap::is_function_value: a tagged pointer whose target has the
function datakey.  A `strPtr` is a tagged pointer but its datakey is
StringDatakey, so the test fails.  A forged `bits` pattern with low
bits 001 would dereference an arbitrary address in C++; such cells are
never produced as values by the VM and the model returns false. -/
def isFunctionValue (m : Machine) : Cell → Bool
  | .taggedPtr f => isFunctionObject m f
  | _ => false

/-! ## Sys-functions (src/sys_maths.cpp, src/sysprintln.cpp) -/

/-- Result of a sys-function call: on a C++ throw, the machine state at
the moment of the throw (mutations made before the throw are real). -/
abbrev SysRes := Except (String × Machine) Machine

/-- The machine component of a sys-function result (the post-throw state
on error). -/
def SysRes.mach : SysRes → Machine
  | .ok r => r
  | .error (_, r) => r

/-- binary_int_operation (sys_maths.cpp): require nargs == 2, pop one
operand (n, the top), peek the other (m, now the top), demand both be
tagged ints, apply the operation to the detagged pair (deeper operand
first) and overwrite the top with the result. -/
def binary_int_operation (op : Int → Int → Except String Cell)
    (op_name op_symbol : String) (mach : Machine) (nargs : Nat) : SysRes :=
  if nargs ≠ 2 then
    .error (op_name ++ " (" ++ op_symbol ++ "): nargs must be 2.", mach)
  else
    match popOp mach with
    | .error msg => .error (msg, mach)
    | .ok (n, mach1) =>
      match peekOp mach1 with
      | .error msg => .error (msg, mach1)
      | .ok mc =>
        if !(n.isTaggedInt && mc.isTaggedInt) then
          .error (op_name ++ " (" ++ op_symbol ++ "): both arguments must be integers.", mach1)
        else
          match op mc.asInt n.asInt with
          | .error msg => .error (msg, mach1)
          | .ok result => .ok (peekSet mach1 result)

/-- sys_add.  int64 addition of two 62-bit tagged values cannot overflow
the re-tagging, because make_tagged_int reduces mod 2^64. -/
def sys_add (mach : Machine) (nargs : Nat) : SysRes :=
  binary_int_operation (fun a b => .ok (.bits (make_tagged_int (a + b)))) "add" "+" mach nargs

/-- sys_subtract. -/
def sys_subtract (mach : Machine) (nargs : Nat) : SysRes :=
  binary_int_operation (fun a b => .ok (.bits (make_tagged_int (a - b)))) "subtract" "-" mach nargs

/-- sys_multiply (the sys_maths.cpp definition, the one the claim
cites; int64 overflow wraps, and make_tagged_int reduces mod 2^64, so
wrapping before tagging equals tagging the exact product). -/
def sys_multiply (mach : Machine) (nargs : Nat) : SysRes :=
  binary_int_operation (fun a b => .ok (.bits (make_tagged_int (a * b)))) "multiply" "*" mach nargs

/-- sys_divide: C++ int64 division truncates toward zero (Int.tdiv);
division by zero throws. -/
def sys_divide (mach : Machine) (nargs : Nat) : SysRes :=
  binary_int_operation
    (fun a b =>
      if b = 0 then .error "divide (/): division by zero"
      else .ok (.bits (make_tagged_int (Int.tdiv a b)))) "divide" "/" mach nargs

/-- sys_less_than: the comparison lambdas yield SPECIAL_TRUE/SPECIAL_FALSE. -/
def sys_less_than (mach : Machine) (nargs : Nat) : SysRes :=
  binary_int_operation
    (fun a b => .ok (.bits (if a < b then SPECIAL_TRUE else SPECIAL_FALSE)))
    "less_than" "<" mach nargs

/-- sys_greater_than. -/
def sys_greater_than (mach : Machine) (nargs : Nat) : SysRes :=
  binary_int_operation
    (fun a b => .ok (.bits (if a > b then SPECIAL_TRUE else SPECIAL_FALSE)))
    "greater_than" ">" mach nargs

/-- sys_less_than_or_equal_to. -/
def sys_less_than_or_equal_to (mach : Machine) (nargs : Nat) : SysRes :=
  binary_int_operation
    (fun a b => .ok (.bits (if a ≤ b then SPECIAL_TRUE else SPECIAL_FALSE)))
    "less_equal" "<=" mach nargs

/-- sys_greater_than_or_equal_to. -/
def sys_greater_than_or_equal_to (mach : Machine) (nargs : Nat) : SysRes :=
  binary_int_operation
    (fun a b => .ok (.bits (if a ≥ b then SPECIAL_TRUE else SPECIAL_FALSE)))
    "greater_equal" ">=" mach nargs

/-- sys_negate (unary_int_operation with negation: peek, demand tagged
int, overwrite top with the negation; no pop). -/
def sys_negate (mach : Machine) (nargs : Nat) : SysRes :=
  if nargs ≠ 2 then
    .error ("negate (-): nargs must be 2.", mach)
  else
    match peekOp mach with
    | .error msg => .error (msg, mach)
    | .ok x =>
      if !x.isTaggedInt then
        .error ("negate (-): argument must be an integer.", mach)
      else
        .ok (peekSet mach (.bits (make_tagged_int (-(x.asInt)))))

/-- sys_println (src/sysprintln.cpp): pops a count N (a tagged int,
non-negative, at most the remaining stack size), prints N values (the
printing itself has no machine effect) and removes them with
pop_multiple. -/
def sys_println (mach : Machine) : SysRes :=
  if mach.operand_stack.isEmpty then
    .error ("println: Stack underflow when reading count.", mach)
  else
    match popOp mach with
    | .error msg => .error (msg, mach)
    | .ok (count_cell, mach1) =>
      if !count_cell.isTaggedInt then
        .error ("println: Count must be an integer.", mach1)
      else
        let count := count_cell.asInt
        if count < 0 then
          .error ("println: Count cannot be negative.", mach1)
        else if (mach1.operand_stack.length : Int) < count then
          .error ("println: Stack underflow, insufficient values for count.", mach1)
        else
          .ok { mach1 with
                operand_stack := mach1.operand_stack.take (mach1.operand_stack.length - count.toNat) }

/-- Dispatch a sys-function pointer (the table of src/sysfunctions.cpp). -/
def sysCall (s : SysName) (mach : Machine) (nargs : Nat) : SysRes :=
  match s with
  | .println => sys_println mach
  | .add => sys_add mach nargs
  | .subtract => sys_subtract mach nargs
  | .multiply => sys_multiply mach nargs
  | .divide => sys_divide mach nargs
  | .negate => sys_negate mach nargs
  | .less_than => sys_less_than mach nargs
  | .greater_than => sys_greater_than mach nargs
  | .less_equal => sys_less_than_or_equal_to mach nargs
  | .greater_equal => sys_greater_than_or_equal_to mach nargs

/-! ## The threaded interpreter (Machine::threaded_impl, src/machine.cpp)

One `step` executes one handler body: the dispatch `goto *pc++->label_addr`
reads the cell at `pc`; if it is not a handler label address the C++
jumps to an arbitrary address, modelled as `crashed`.  A `fatal` outcome
is a thrown std::runtime_error (carrying the machine state at the
throw, whose mutations persist); `halted` is the HALT handler's return. -/

/-- Outcome of interpreter steps. -/
inductive Outcome where
  | running (m : Machine) (pc : CodeAddr)
  | halted (m : Machine)
  | fatal (m : Machine) (msg : String)
  | crashed (m : Machine)
deriving DecidableEq, Repr

/-- The machine component of an outcome. -/
def Outcome.mach : Outcome → Machine
  | .running m _ => m
  | .halted m => m
  | .fatal m _ => m
  | .crashed m => m

/-- Reading `.u64` of a cell for as_detagged_int (the snapshot reads in
DONE / CALL_GLOBAL_COUNTED / SYSCALL_COUNTED): determinate only on a
plain bit pattern. -/
def Cell.detagInt : Cell → Option Int
  | .bits v => some (as_detagged_int v)
  | _ => none

/-- A detagged heap pointer: a function-arena index, a string object, or
a bit pattern reinterpreted as an address (wild). -/
inductive HeapPtr where
  | fn (f : Nat)
  | str (s : String)
  | wild
deriving DecidableEq, Repr

/-- Machine::get_function_ptr: throw unless is_tagged_ptr, then detag. -/
def getFunctionPtr (c : Cell) : Except String HeapPtr :=
  match c with
  | .taggedPtr f => .ok (.fn f)
  | .strPtr s => .ok (.str s)
  | .bits v => if v % 8 == 1 then .ok .wild else .error "Cell is not a pointer"
  | _ => .error "Cell is not a pointer"

/-- Interpret a 64-bit value as int (the `static_cast<int>(count)` in the
SYSCALL_COUNTED handler), then widened back to the uint64_t parameter. -/
def toInt32 (u : Nat) : Int :=
  if u % 2 ^ 32 < 2 ^ 31 then ((u % 2 ^ 32 : Nat) : Int) else ((u % 2 ^ 32 : Nat) : Int) - 2 ^ 32

/-- The parameter-move loop shared by the frame builders: `nparams` times,
pop from the operand stack and push onto the return stack.  On stack
underflow the partially-built frame persists. -/
def moveParams : Nat → Machine → SysRes
  | 0, m => .ok m
  | k + 1, m =>
    match popOp m with
    | .error msg => .error (msg, m)
    | .ok (v, m1) => moveParams k (pushReturn m1 v)

/-- Machine::call_function_object (machine.cpp): verify the callee is a
function object, check arg_count == nparams, build the frame (extras as
nil, parameters moved over, func_obj pointer, return address), and
transfer control to the callee's first code word.  A `wild` pointer
means the datakey read dereferences an arbitrary address. -/
def callFunctionObject (m : Machine) (ret : CodeAddr) (p : HeapPtr) (arg_count : Nat) : Outcome :=
  match p with
  | .str _ => .fatal m "Attempt to lazily evaluate a non-function object"
  | .wild => .crashed m
  | .fn f =>
    match m.funcs.get? f with
    | none => .crashed m
    | some fo =>
      if arg_count ≠ fo.nparams then
        .fatal m ("Function expected " ++ toString fo.nparams ++ " arguments, but got "
                  ++ toString arg_count)
      else
        let m1 := { m with return_stack :=
                      m.return_stack ++ List.replicate (fo.nlocals - fo.nparams) nilCell }
        match moveParams fo.nparams m1 with
        | .error (msg, m2) => .fatal m2 msg
        | .ok m2 =>
          let m3 := pushReturn (pushReturn m2 (.rawFuncPtr f)) (.codePtr ret.1 ret.2)
          .running m3 (f, 0)

/-- Machine::LaunchInstruction: reads the raw func_obj operand and builds
the entry frame exactly as the call path does, but with no function-object
or arity check (parameters are moved unconditionally). -/
def launchInstruction (m : Machine) (f i : Nat) : Outcome :=
  match fetch m f (i + 1) with
  | some (.rawFuncPtr g) =>
    match m.funcs.get? g with
    | none => .crashed m
    | some fo =>
      let m1 := { m with return_stack :=
                    m.return_stack ++ List.replicate (fo.nlocals - fo.nparams) nilCell }
      match moveParams fo.nparams m1 with
      | .error (msg, m2) => .fatal m2 msg
      | .ok m2 =>
        let m3 := pushReturn (pushReturn m2 (.rawFuncPtr g)) (.codePtr f (i + 2))
        .running m3 (g, 0)
  | some _ => .crashed m
  | none => .crashed m

/-- Execute the body of one handler of Machine::threaded_impl.  `f, i`
address the handler cell itself (the C++ `self`); operands start at
`i + 1`, and the trailing `goto *(pc++)->label_addr` of each body becomes
the `running` continuation address. -/
def execHandler (h : Handler) (m : Machine) (f i : Nat) : Outcome :=
  match h with
  | .push_int =>
    match fetch m f (i + 1) with
    | some (.bits v) => .running (pushOp m (.bits (make_tagged_int (toInt64 v)))) (f, i + 2)
    | some _ => .crashed m
    | none => .crashed m
  | .push_string =>
    match fetch m f (i + 1) with
    | some c => .running (pushOp m c) (f, i + 2)
    | none => .crashed m
  | .pop_local =>
    -- The handler body is commented out in the source: no operand is
    -- consumed; the next dispatch happens at the operand cell.
    .running m (f, i + 1)
  | .push_local =>
    -- Likewise commented out in the source.
    .running m (f, i + 1)
  | .in_progress =>
    -- Reads the Ident* operand without advancing pc, then dispatches on
    -- that same operand cell.  No opcode maps to this label.
    match fetch m f (i + 1) with
    | some (.identPtr j) =>
      match m.idents.get? j with
      | none => .crashed m
      | some id =>
        if id.in_progress then
          .fatal m "Recursive evaluation of top-level constants detected"
        else
          .running (setIdent m j { id with in_progress := true }) (f, i + 1)
    | some _ => .crashed m
    | none => .crashed m
  | .done =>
    match fetch m f (i + 1) with
    | some (.bits offv) =>
      let offset := toInt64 offv
      match getLocal m.return_stack offset with
      | none => .crashed m
      | some snapCell =>
        match snapCell.detagInt with
        | none => .crashed m
        | some snap =>
          -- uint64_t count = operand_stack_.size() - as_detagged_int(...)
          let count : Int := (((m.operand_stack.length : Int) - snap).emod (W64 : Int))
          if count ≠ 1 then
            .fatal m "DONE instruction expects 1 argument on the stack"
          else
            match fetch m f (i + 2) with
            | some (.identPtr j) =>
              match m.idents.get? j with
              | none => .crashed m
              | some _ =>
                match m.operand_stack.getLast? with
                | none => .fatal m "Stack is empty"
                | some top =>
                  let m1 := setIdent m j { cell := top, lazy := false, in_progress := false }
                  if isFunctionValue m1 top then
                    .running m1 (f, i + 3)
                  else
                    .fatal m1
                      "Expected function object value (not a tagged pointer or datakey mismatch)"
            | some _ => .crashed m
            | none => .crashed m
    | some _ => .crashed m
    | none => .crashed m
  | .push_global_lazy =>
    match fetch m f (i + 1) with
    | some (.identPtr j) =>
      match m.idents.get? j with
      | none => .crashed m
      | some id =>
        if id.lazy then
          match getFunctionPtr id.cell with
          | .error msg => .fatal m msg
          | .ok p => callFunctionObject m (f, i + 2) p 0
        else
          -- self->ptr = &&L_PUSH_GLOBAL; pc = self;  (re-dispatch in place)
          .running (setCode m f i (.handlerAddr .push_global)) (f, i)
    | some _ => .crashed m
    | none => .crashed m
  | .push_global =>
    match fetch m f (i + 1) with
    | some (.identPtr j) =>
      match m.idents.get? j with
      | none => .crashed m
      | some id => .running (pushOp m id.cell) (f, i + 2)
    | some _ => .crashed m
    | none => .crashed m
  | .call_global_counted_lazy =>
    match fetch m f (i + 1) with
    | some (.bits _) =>
      match fetch m f (i + 2) with
      | some (.identPtr j) =>
        match m.idents.get? j with
        | none => .crashed m
        | some id =>
          if id.lazy then
            match getFunctionPtr id.cell with
            | .error msg => .fatal m msg
            | .ok p => callFunctionObject m (f, i + 3) p 0
          else
            .running (setCode m f i (.handlerAddr .call_global_counted)) (f, i)
      | some _ => .crashed m
      | none => .crashed m
    | some _ => .crashed m
    | none => .crashed m
  | .call_global_counted =>
    match fetch m f (i + 1) with
    | some (.bits offv) =>
      let offset := toInt64 offv
      match getLocal m.return_stack offset with
      | none => .crashed m
      | some snapCell =>
        match snapCell.detagInt with
        | none => .crashed m
        | some snap =>
          -- uint64_t count is computed but never compared to nparams.
          let _count : Int := (((m.operand_stack.length : Int) - snap).emod (W64 : Int))
          match fetch m f (i + 2) with
          | some (.identPtr j) =>
            match m.idents.get? j with
            | none => .crashed m
            | some id =>
              match getFunctionPtr id.cell with
              | .error msg => .fatal m msg
              | .ok (.fn g) =>
                match m.funcs.get? g with
                | none => .crashed m
                | some fo =>
                  -- frame build without is_function_object or arity check
                  let m1 := { m with return_stack :=
                                m.return_stack
                                  ++ List.replicate (fo.nlocals - fo.nparams) nilCell }
                  match moveParams fo.nparams m1 with
                  | .error (msg, m2) => .fatal m2 msg
                  | .ok m2 =>
                    let m3 := pushReturn (pushReturn m2 (.rawFuncPtr g)) (.codePtr f (i + 3))
                    .running m3 (g, 0)
              | .ok _ =>
                -- metadata reads on a non-function heap object
                .crashed m
          | some _ => .crashed m
          | none => .crashed m
    | some _ => .crashed m
    | none => .crashed m
  | .syscall_counted =>
    match fetch m f (i + 1) with
    | some (.bits offv) =>
      let offset := toInt64 offv
      match getLocal m.return_stack offset with
      | none => .crashed m
      | some snapCell =>
        match snapCell.detagInt with
        | none => .crashed m
        | some snap =>
          let count : Nat := (((m.operand_stack.length : Int) - snap).emod (W64 : Int)).toNat
          match fetch m f (i + 2) with
          | some (.sysPtr s) =>
            match sysCall s m (ofInt64 (toInt32 count)) with
            | .error (msg, m1) => .fatal m1 msg
            | .ok m1 => .running m1 (f, i + 3)
          | some _ => .crashed m
          | none => .crashed m
    | some _ => .crashed m
    | none => .crashed m
  | .stack_length =>
    match fetch m f (i + 1) with
    | some (.bits offv) =>
      let offset := toInt64 offv
      match setLocal m.return_stack offset
              (.bits (make_tagged_int (m.operand_stack.length : Int))) with
      | none => .crashed m
      | some rs1 => .running { m with return_stack := rs1 } (f, i + 2)
    | some _ => .crashed m
    | none => .crashed m
  | .ret =>
    match popReturn m with
    | .error msg => .fatal m msg
    | .ok (retCell, m1) =>
      match popReturn m1 with
      | .error msg => .fatal m1 msg
      | .ok (fo_cell, m2) =>
        match fo_cell with
        | .rawFuncPtr g =>
          match m2.funcs.get? g with
          | none => .crashed m2
          | some fo =>
            -- pop_return_frame(nlocals): definition absent from src/.
            -- Modelled from the spec: RETURN frees nlocals cells from the
            -- return stack; return-stack underflow is a fatal error.
            if m2.return_stack.length < fo.nlocals then
              .fatal m2 "Return stack underflow"
            else
              let m3 := { m2 with return_stack :=
                            m2.return_stack.take (m2.return_stack.length - fo.nlocals) }
              match retCell with
              | .codePtr rf ri => .running m3 (rf, ri)
              | _ => .crashed m3
        | _ => .crashed m2
  | .halt => .halted m
  | .launch => launchInstruction m f i
  | .goto_label => .crashed m
  | .if_not_label => .crashed m
  | .check_bool_label => .crashed m

/-- One dispatch of the threaded interpreter: read the cell at pc as a
handler label address and execute the handler body.  Dispatching on a
cell that is not a handler address jumps to an arbitrary address. -/
def step (m : Machine) (pc : CodeAddr) : Outcome :=
  match fetch m pc.1 pc.2 with
  | some (.handlerAddr h) => execHandler h m pc.1 pc.2
  | some _ => .crashed m
  | none => .crashed m

/-- Iterate `step` for at most `n` dispatches. -/
def run (m : Machine) (pc : CodeAddr) : Nat → Outcome
  | 0 => .running m pc
  | n + 1 =>
    match step m pc with
    | .running m1 pc1 => run m1 pc1 n
    | o => o

/-! ## Opcodes and the two planters
(src/instruction.hpp, src/instruction.cpp, src/machine.cpp,
src/parse_function_object.cpp) -/

/-- The Opcode enumeration (src/instruction.hpp). -/
inductive Opcode where
  | DONE | PUSH_INT | PUSH_STRING | PUSH_BOOL | POP_LOCAL | PUSH_LOCAL
  | PUSH_GLOBAL | PUSH_GLOBAL_LAZY | LAUNCH | CALL_GLOBAL_COUNTED
  | CALL_GLOBAL_COUNTED_LAZY | SYSCALL_COUNTED | STACK_LENGTH | CHECK_BOOL
  | LABEL | GOTO | IF_NOT | RETURN | HALT
deriving DecidableEq, Repr

/-- string_to_opcode (src/instruction.cpp): map a JSON type string to a
(strict, lazy) opcode pair; unknown strings fail. -/
def string_to_opcode (ty : String) : Except String (Opcode × Opcode) :=
  if ty = "push.int" then .ok (.PUSH_INT, .PUSH_INT)
  else if ty = "push.string" then .ok (.PUSH_STRING, .PUSH_STRING)
  else if ty = "pop.local" then .ok (.POP_LOCAL, .POP_LOCAL)
  else if ty = "push.local" then .ok (.PUSH_LOCAL, .PUSH_LOCAL)
  else if ty = "push.global" then .ok (.PUSH_GLOBAL, .PUSH_GLOBAL_LAZY)
  else if ty = "call.global.counted" then .ok (.CALL_GLOBAL_COUNTED, .CALL_GLOBAL_COUNTED_LAZY)
  else if ty = "syscall.counted" then .ok (.SYSCALL_COUNTED, .SYSCALL_COUNTED)
  else if ty = "stack.length" then .ok (.STACK_LENGTH, .STACK_LENGTH)
  else if ty = "return" then .ok (.RETURN, .RETURN)
  else if ty = "halt" then .ok (.HALT, .HALT)
  else if ty = "done" then .ok (.DONE, .DONE)
  else .error ("Unknown instruction type: " ++ ty)

/-- The opcode map captured by Machine::threaded_impl in init mode
(machine.cpp): exactly fourteen opcodes have handler label addresses;
PUSH_BOOL, CHECK_BOOL, LABEL, GOTO and IF_NOT have none. -/
def machineOpcodeMap : Opcode → Option Handler
  | .PUSH_INT => some .push_int
  | .PUSH_STRING => some .push_string
  | .POP_LOCAL => some .pop_local
  | .PUSH_LOCAL => some .push_local
  | .PUSH_GLOBAL => some .push_global
  | .PUSH_GLOBAL_LAZY => some .push_global_lazy
  | .LAUNCH => some .launch
  | .CALL_GLOBAL_COUNTED => some .call_global_counted
  | .CALL_GLOBAL_COUNTED_LAZY => some .call_global_counted_lazy
  | .SYSCALL_COUNTED => some .syscall_counted
  | .STACK_LENGTH => some .stack_length
  | .RETURN => some .ret
  | .HALT => some .halt
  | .DONE => some .done
  | _ => none

/-- The sysfunctions_table (src/sysfunctions.cpp) restricted to the names
whose functions are defined under src/ (the table also names
sys_identical for "===" and sys_not_identical for "!==", but those two
functions have no definition in the sources). -/
def sysfunctions_table (nm : String) : Option SysName :=
  if nm = "println" then some .println
  else if nm = "+" then some .add
  else if nm = "-" then some .subtract
  else if nm = "*" then some .multiply
  else if nm = "/" then some .divide
  else if nm = "negate" then some .negate
  else if nm = "<" then some .less_than
  else if nm = ">" then some .greater_than
  else if nm = "<=" then some .less_equal
  else if nm = ">=" then some .greater_equal
  else none

/-- A declarative instruction after JSON decoding (struct Instruction,
src/instruction.hpp): the type string and the optional fields. -/
structure Instr where
  type : String := ""
  index : Option Int := none
  ivalue : Option Int := none
  value : Option String := none
  name : Option String := none
deriving DecidableEq, Repr

/-- Instruction::calc_offset (src/instruction.hpp):
`nlocals - index + 2`, failing when the instruction has no index. -/
def calc_offset (nlocals : Int) (index : Option Int) : Except String Int :=
  match index with
  | some i => .ok (nlocals - i + 2)
  | none => .error "calc_offset called on instruction without index"

/-- The FunctionObject produced by a planter (src/function_object.hpp):
nlocals and nparams as JSON ints, plus the threaded code words. -/
structure PlantedFunction where
  nlocals : Int
  nparams : Int
  code : List Cell
deriving DecidableEq, Repr

/-- Machine::allocate_function + Heap::allocate_function: the planted
nlocals/nparams are packed into 16-bit fields of the header word, so the
heap function object carries them reduced accordingly. -/
def allocateFunction (pf : PlantedFunction) : FuncObj :=
  { nlocals := ofInt64 pf.nlocals % 2 ^ 16,
    nparams := ofInt64 pf.nparams % 2 ^ 16,
    code := pf.code }

/-- One case of the operand-emission switch of
Machine::parse_function_object (src/machine.cpp).  `names` is the
globals_ table (lookup_ident).  Returns the code extended with the
handler cell and the operand cells. -/
def mpPlantInstr (names : String → Option Nat) (code : List Cell) (inst : Instr) :
    Except String (List Cell) := do
  let opcodes ← string_to_opcode inst.type
  -- machine.cpp line 268: inst.opcode = opcodes.second
  let opcode := opcodes.2
  match machineOpcodeMap opcode with
  | none => .error "Opcode not found in map"
  | some h =>
    let code := code ++ [.handlerAddr h]
    match opcode with
    | .PUSH_INT | .POP_LOCAL | .PUSH_LOCAL =>
      -- operand.i64 = inst.index.value_or(0)
      .ok (code ++ [rawI64 (inst.index.getD 0)])
    | .PUSH_STRING =>
      match inst.value with
      | none => .error "bad_optional_access"
      | some s => .ok (code ++ [.strPtr s])
    | .PUSH_GLOBAL_LAZY | .PUSH_GLOBAL =>
      match inst.name with
      | none => .error "PUSH_GLOBAL requires a name field"
      | some nm =>
        match names nm with
        | none => .error ("PUSH_GLOBAL: undefined global variable: " ++ nm)
        | some j => .ok (code ++ [.identPtr j])
    | .CALL_GLOBAL_COUNTED_LAZY | .CALL_GLOBAL_COUNTED =>
      match inst.index with
      | none => .error "CALL_GLOBAL_COUNTED requires an index field"
      | some idx =>
        match inst.name with
        | none => .error "CALL_GLOBAL_COUNTED requires a name field"
        | some nm =>
          match names nm with
          | none => .error ("CALL_GLOBAL_COUNTED: undefined global function: " ++ nm)
          | some j => .ok (code ++ [rawI64 (idx + 3), .identPtr j])
    | .SYSCALL_COUNTED =>
      match inst.index with
      | none => .error "SYSCALL_COUNTED requires an index field"
      | some idx =>
        match inst.name with
        | none => .error "SYSCALL_COUNTED requires a name field"
        | some nm =>
          match sysfunctions_table nm with
          | none => .error ("Unknown sys-function: " ++ nm)
          | some s => .ok (code ++ [rawI64 (idx + 3), .sysPtr s])
    | .STACK_LENGTH =>
      match inst.index with
      | none => .error "STACK_LENGTH requires an index field"
      | some idx => .ok (code ++ [rawI64 (idx + 3)])
    | .RETURN | .HALT => .ok code
    | .DONE =>
      -- the source reuses the CALL_GLOBAL_COUNTED error messages here
      match inst.index with
      | none => .error "CALL_GLOBAL_COUNTED requires an index field"
      | some idx =>
        match inst.name with
        | none => .error "CALL_GLOBAL_COUNTED requires a name field"
        | some nm =>
          match names nm with
          | none => .error ("DONE: undefined global function: " ++ nm)
          | some j => .ok (code ++ [rawI64 (idx + 3), .identPtr j])
    | _ => .error "Unhandled opcode during compilation"

/-- Machine::parse_function_object (src/machine.cpp): compile the
instruction list to threaded code and append a final HALT word. -/
def mpParse (names : String → Option Nat) (nlocals nparams : Int) (instrs : List Instr) :
    Except String PlantedFunction := do
  let code ← instrs.foldlM (mpPlantInstr names) []
  .ok { nlocals := nlocals, nparams := nparams, code := code ++ [.handlerAddr .halt] }

/-! ## ParseFunctionObject (src/parse_function_object.cpp)

The planter with label resolution.  `labelMap` is the
`unordered_map<string, size_t>` (assignment overwrites, modelled by
prepending and first-match lookup); `forwardRefs` flattens the
`unordered_map<string, vector<size_t>>` into (label, ref) pairs.
`jumps` instruments plant_jump_instruction: it records every
(label, operand position) pair a GOTO/IF_NOT planted, and is read by
nothing — the other fields evolve exactly as the source's do. -/

structure PlantState where
  nlocals : Int
  nparams : Int
  code : List Cell
  labelMap : List (String × Nat)
  forwardRefs : List (String × Nat)
  jumps : List (String × Nat)
deriving DecidableEq, Repr

/-- Look a label up in the label map (first match = latest assignment). -/
def lookupLabel (lm : List (String × Nat)) (nm : String) : Option Nat :=
  (lm.find? (fun p => p.1 = nm)).map (·.2)

/-- ParseFunctionObject::plant_label: record the current code position
for the label, then patch every pending forward reference to it with
`target - (ref + 1)` and drop those references. -/
def plant_label (s : PlantState) (inst : Instr) : Except String PlantState :=
  match inst.value with
  | none => .error "LABEL requires a value field"
  | some nm =>
    let pos := s.code.length
    let refs := (s.forwardRefs.filter (fun p => p.1 = nm)).map (·.2)
    let code := refs.foldl
      (fun c r => c.set r (rawI64 ((pos : Int) - ((r : Int) + 1)))) s.code
    .ok { s with
          code := code,
          labelMap := (nm, pos) :: s.labelMap,
          forwardRefs := s.forwardRefs.filter (fun p => ¬ p.1 = nm) }

/-- ParseFunctionObject::plant_jump_instruction: push a placeholder
operand; resolve immediately when the label is known (backward jump),
otherwise record a forward reference. -/
def plant_jump_instruction (s : PlantState) (nm : String) : PlantState :=
  let operand_pos := s.code.length
  let code := s.code ++ [rawI64 0]
  match lookupLabel s.labelMap nm with
  | some target =>
    { s with
      code := code.set operand_pos (rawI64 ((target : Int) - ((operand_pos : Int) + 1))),
      jumps := s.jumps ++ [(nm, operand_pos)] }
  | none =>
    { s with
      code := code,
      forwardRefs := s.forwardRefs ++ [(nm, operand_pos)],
      jumps := s.jumps ++ [(nm, operand_pos)] }

/-- ParseFunctionObject::plant_instruction: LABEL emits no code; every
other opcode emits its handler cell (looked up in the machine's opcode
map) followed by its operands. -/
def ppPlantInstruction (opmap : Opcode → Option Handler) (names : String → Option Nat)
    (s : PlantState) (opcode : Opcode) (inst : Instr) : Except String PlantState := do
  if opcode = .LABEL then
    plant_label s inst
  else
    match opmap opcode with
    | none => .error "Opcode not found in map"
    | some h =>
      let s := { s with code := s.code ++ [.handlerAddr h] }
      match opcode with
      | .PUSH_INT =>
        match inst.ivalue with
        | none => .error "PUSH_INT requires an ivalue field"
        | some iv => .ok { s with code := s.code ++ [.bits (make_tagged_int iv)] }
      | .PUSH_BOOL =>
        match inst.value with
        | none => .error "PUSH_BOOL requires a value field"
        | some v =>
          if v = "true" then .ok { s with code := s.code ++ [.bits SPECIAL_TRUE] }
          else if v = "false" then .ok { s with code := s.code ++ [.bits SPECIAL_FALSE] }
          else .error "PUSH_BOOL value must be true or false"
      | .PUSH_STRING =>
        match inst.value with
        | none => .error "bad_optional_access"
        | some str => .ok { s with code := s.code ++ [.strPtr str] }
      | .POP_LOCAL => .error "POP_LOCAL not yet implemented"
      | .PUSH_LOCAL => do
        let off ← calc_offset s.nlocals inst.index
        .ok { s with code := s.code ++ [rawI64 off] }
      | .PUSH_GLOBAL_LAZY | .PUSH_GLOBAL =>
        match inst.name with
        | none => .error "PUSH_GLOBAL requires a name field"
        | some nm =>
          match names nm with
          | none => .error ("PUSH_GLOBAL: undefined global variable: " ++ nm)
          | some j => .ok { s with code := s.code ++ [.identPtr j] }
      | .CALL_GLOBAL_COUNTED_LAZY | .CALL_GLOBAL_COUNTED =>
        match inst.index with
        | none => .error "CALL_GLOBAL_COUNTED requires an index field"
        | some _ =>
          match inst.name with
          | none => .error "CALL_GLOBAL_COUNTED requires a name field"
          | some nm =>
            match names nm with
            | none => .error ("CALL_GLOBAL_COUNTED: undefined global function: " ++ nm)
            | some j => do
              let off ← calc_offset s.nlocals inst.index
              .ok { s with code := s.code ++ [rawI64 off, .identPtr j] }
      | .SYSCALL_COUNTED =>
        match inst.index with
        | none => .error "SYSCALL_COUNTED requires an index field"
        | some _ =>
          match inst.name with
          | none => .error "SYSCALL_COUNTED requires a name field"
          | some nm => do
            let off ← calc_offset s.nlocals inst.index
            match sysfunctions_table nm with
            | none => .error ("Unknown sys-function: " ++ nm)
            | some sy => .ok { s with code := s.code ++ [rawI64 off, .sysPtr sy] }
      | .STACK_LENGTH =>
        match inst.index with
        | none => .error "STACK_LENGTH requires an index field"
        | some _ => do
          let off ← calc_offset s.nlocals inst.index
          .ok { s with code := s.code ++ [rawI64 off] }
      | .CHECK_BOOL =>
        match inst.index with
        | none => .error "CHECK_BOOL requires an index field"
        | some _ => do
          let off ← calc_offset s.nlocals inst.index
          .ok { s with code := s.code ++ [rawI64 off] }
      | .GOTO =>
        match inst.value with
        | none => .error "GOTO requires a value field"
        | some nm => .ok (plant_jump_instruction s nm)
      | .IF_NOT =>
        match inst.value with
        | none => .error "IF_NOT requires a value field"
        | some nm => .ok (plant_jump_instruction s nm)
      | .RETURN | .HALT => .ok s
      | .DONE =>
        match inst.index with
        | none => .error "DONE requires an index field"
        | some _ =>
          match inst.name with
          | none => .error "DONE requires a name field"
          | some nm =>
            match names nm with
            | none => .error ("DONE: undefined global function: " ++ nm)
            | some j => do
              let off ← calc_offset s.nlocals inst.index
              .ok { s with code := s.code ++ [rawI64 off, .identPtr j] }
      | _ => .error "Unhandled opcode during compilation"

/-- The body of ParseFunctionObject::parse's instruction loop: decode
the type string and select the strict or lazy opcode column by the
dependency's lazy flag, then plant.  The type-string table `tbl` and
the machine's opcode map `opmap` are parameters: the copies in
src/instruction.cpp and src/machine.cpp (string_to_opcode,
machineOpcodeMap) lack rows for the control-flow opcodes this planter
supports. -/
def ppPlantOne (tbl : String → Option (Opcode × Opcode)) (opmap : Opcode → Option Handler)
    (names : String → Option Nat) (deps : String → Option Bool)
    (s : PlantState) (inst : Instr) : Except String PlantState :=
  match tbl inst.type with
  | none => .error ("Unknown instruction type: " ++ inst.type)
  | some opcodes =>
    let is_lazy := match inst.name with
      | some nm => (deps nm).getD false
      | none => false
    ppPlantInstruction opmap names s (if is_lazy then opcodes.2 else opcodes.1) inst

/-- ParseFunctionObject::parse, after JSON decoding: plant each
instruction, check that no forward reference is unresolved, and append
a final HALT. -/
def ppParse (tbl : String → Option (Opcode × Opcode)) (opmap : Opcode → Option Handler)
    (names : String → Option Nat) (deps : String → Option Bool)
    (nlocals nparams : Int) (instrs : List Instr) :
    Except String PlantState := do
  let s0 : PlantState :=
    { nlocals := nlocals, nparams := nparams, code := [],
      labelMap := [], forwardRefs := [], jumps := [] }
  let s ← instrs.foldlM (ppPlantOne tbl opmap names deps) s0
  if !s.forwardRefs.isEmpty then
    .error "Unresolved label references"
  else
    match opmap .HALT with
    | none => .error "map::at"
    | some h => .ok { s with code := s.code ++ [.handlerAddr h] }

/-! ## Concrete programs and auxiliary enumerations used by the theorems -/

/-- The in-source type-string table as ParseFunctionObject::parse
consults it: string_to_opcode's Except collapsed to the Option shape of
the planter's lookup (a missing row is the same
"Unknown instruction type" failure either way). -/
def srcOpcodeTable (ty : String) : Option (Opcode × Opcode) :=
  (string_to_opcode ty).toOption

/-- The chosen opcode of an instruction under a type table and
dependency-laziness map (the selection in ParseFunctionObject::parse). -/
def chosenOpcode (tbl : String → Option (Opcode × Opcode)) (deps : String → Option Bool)
    (inst : Instr) : Option Opcode :=
  (tbl inst.type).map fun opcodes =>
    let is_lazy := match inst.name with
      | some nm => (deps nm).getD false
      | none => false
    if is_lazy then opcodes.2 else opcodes.1

/-- The label names a program plants, in order. -/
def plantedLabels (tbl : String → Option (Opcode × Opcode)) (deps : String → Option Bool)
    (instrs : List Instr) : List String :=
  instrs.filterMap fun inst =>
    match chosenOpcode tbl deps inst with
    | some .LABEL => inst.value
    | _ => none

/-- C1 scenario: the thunk of a lazy binding that computes the integer 7
(`stack.length 0 ; push.int 7 ; done 0 ref ; return`), planted with
machine.cpp's offsets (index 0 snapshots into local offset 3). -/
def doneScThunk : FuncObj :=
  { nlocals := 1, nparams := 0,
    code := [.handlerAddr .stack_length, rawI64 3,
             .handlerAddr .push_int, .bits (ofInt64 7),
             .handlerAddr .done, rawI64 3, .identPtr 0,
             .handlerAddr .ret, .handlerAddr .halt] }

/-- C1 scenario: the consumer that first touches the lazy global. -/
def doneScMain : FuncObj :=
  { nlocals := 0, nparams := 0,
    code := [.handlerAddr .push_global_lazy, .identPtr 0, .handlerAddr .halt] }

/-- C1 scenario start state: Ident 0 is the lazy binding, its cell
pointing at the thunk. -/
def doneScStart : Machine :=
  { operand_stack := [], return_stack := [],
    idents := [{ cell := .taggedPtr 0, lazy := true, in_progress := false }],
    funcs := [doneScThunk, doneScMain] }

/-- C1 scenario: the machine state at the DONE handler's throw. -/
def doneScEnd : Machine :=
  { operand_stack := [.bits (make_tagged_int 7)],
    return_stack := [.bits (make_tagged_int 0), .rawFuncPtr 0, .codePtr 1 2],
    idents := [{ cell := .bits (make_tagged_int 7), lazy := false, in_progress := false }],
    funcs := [doneScThunk, doneScMain] }

/-- C2 scenario: a function object a lazy thunk can install (DONE only
completes for function values — C1). -/
def dnScFn : FuncObj :=
  { nlocals := 0, nparams := 0, code := [.handlerAddr .halt] }

/-- C2 scenario: a thunk at its DONE instruction, the evaluated value (a
function object pointer) on the operand stack and the snapshot local
holding 0. -/
def dnScStart : Machine :=
  { operand_stack := [.taggedPtr 1],
    return_stack := [.bits (make_tagged_int 0), .rawFuncPtr 0, .codePtr 0 0],
    idents := [{ cell := .taggedPtr 0, lazy := true, in_progress := false }],
    funcs := [{ nlocals := 1, nparams := 0,
                code := [.handlerAddr .done, rawI64 3, .identPtr 0,
                         .handlerAddr .ret, .handlerAddr .halt] },
              dnScFn] }

/-- C3 scenario: a callee with nparams = 2. -/
def arityScCallee : FuncObj :=
  { nlocals := 2, nparams := 2, code := [.handlerAddr .halt] }

/-- C3 scenario: a caller whose snapshot local records stack length 1
while the stack holds 2 values (call-site stack delta 1). -/
def arityScCaller : FuncObj :=
  { nlocals := 1, nparams := 0,
    code := [.handlerAddr .call_global_counted, rawI64 3, .identPtr 0, .handlerAddr .halt] }

/-- C3 scenario start state: operand stack [5, 6]; the caller's snapshot
local (return_stack bottom) holds tagged 1, so the derived argument
count is 1 against the callee's nparams = 2. -/
def arityScStart : Machine :=
  { operand_stack := [.bits (make_tagged_int 5), .bits (make_tagged_int 6)],
    return_stack := [.bits (make_tagged_int 1), .rawFuncPtr 1, .codePtr 9 9],
    idents := [{ cell := .taggedPtr 0, lazy := false, in_progress := false }],
    funcs := [arityScCallee, arityScCaller] }

/-- C3 scenario: the state after the call completes and the callee
halts — the callee received both stack values (one of them from below
the snapshot) and no error was raised. -/
def arityScEnd : Machine :=
  { operand_stack := [],
    return_stack := [.bits (make_tagged_int 1), .rawFuncPtr 1, .codePtr 9 9,
                     .bits (make_tagged_int 6), .bits (make_tagged_int 5),
                     .rawFuncPtr 0, .codePtr 1 3],
    idents := [{ cell := .taggedPtr 0, lazy := false, in_progress := false }],
    funcs := [arityScCallee, arityScCaller] }

/-- C4 scenario: a lazy binding whose thunk immediately re-evaluates the
same lazy identifier (`push.global x` planted lazy, inside the thunk of
`x`). -/
def recScThunk : FuncObj :=
  { nlocals := 0, nparams := 0,
    code := [.handlerAddr .push_global_lazy, .identPtr 0, .handlerAddr .halt] }

/-- C4 scenario start state. -/
def recScStart : Machine :=
  { operand_stack := [], return_stack := [],
    idents := [{ cell := .taggedPtr 0, lazy := true, in_progress := false }],
    funcs := [recScThunk] }

/-- C4 scenario: the state after k re-entries — the return stack holds k
frames of [func_obj, return address] and nothing else changed. -/
def recScState (k : Nat) : Machine :=
  { recScStart with
    return_stack := (List.replicate k [Cell.rawFuncPtr 0, Cell.codePtr 0 2]).flatten }

/-- C5 scenario: what Machine::parse_function_object emits for the
single-instruction program `push.local index=0` — a handler cell, one
operand cell, and the guard HALT. -/
def plScPlanted : PlantedFunction :=
  { nlocals := 1, nparams := 0,
    code := [.handlerAddr .push_local, rawI64 0, .handlerAddr .halt] }

/-- C5 scenario: the machine holding the planted function, with a frame
whose local exists. -/
def plScStart : Machine :=
  { operand_stack := [],
    return_stack := [.bits (make_tagged_int 0), .rawFuncPtr 0, .codePtr 0 0],
    idents := [], funcs := [allocateFunction plScPlanted] }

/-- C2 witness scenario: a strict global (ident 0, lazy already false)
reached through a site still carrying the lazy handler, plus a second
ident that stays lazy. -/
def rwScMain : FuncObj :=
  { nlocals := 0, nparams := 0,
    code := [.handlerAddr .push_global_lazy, .identPtr 0, .handlerAddr .halt,
             .handlerAddr .call_global_counted_lazy, rawI64 3, .identPtr 0,
             .handlerAddr .push_global, .identPtr 0, .handlerAddr .halt] }

/-- C2 witness scenario start state. -/
def rwScStart : Machine :=
  { operand_stack := [], return_stack := [],
    idents := [{ cell := .taggedPtr 0, lazy := false, in_progress := false }],
    funcs := [rwScMain] }

/-- C7 failing input: a program using the spec's control-flow rows — a
forward jump over dead code, a backward jump, and a conditional forward
jump of length zero. -/
def jpScProgram : List Instr :=
  [{ type := "push.int", ivalue := some 1 },
   { type := "goto", value := some "skip" },
   { type := "push.int", ivalue := some 999 },
   { type := "label", value := some "skip" },
   { type := "if.not", value := some "back" },
   { type := "label", value := some "back" },
   { type := "goto", value := some "back" }]

/-- The eight binary integer sys-functions of the claim. -/
inductive MathOp where
  | add | sub | mul | div | lt | gt | le | ge
deriving DecidableEq, Repr

/-- Dispatch to the corresponding sys_maths.cpp function. -/
def runMathOp : MathOp → Machine → Nat → SysRes
  | .add => sys_add
  | .sub => sys_subtract
  | .mul => sys_multiply
  | .div => sys_divide
  | .lt => sys_less_than
  | .gt => sys_greater_than
  | .le => sys_less_than_or_equal_to
  | .ge => sys_greater_than_or_equal_to

/-- The expected result cell of each operation, applied to the detagged
left operand a (the deeper cell) and right operand b (the top cell). -/
def mathOpResult : MathOp → Int → Int → Cell
  | .add, a, b => .bits (make_tagged_int (a + b))
  | .sub, a, b => .bits (make_tagged_int (a - b))
  | .mul, a, b => .bits (make_tagged_int (a * b))
  | .div, a, b => .bits (make_tagged_int (Int.tdiv a b))
  | .lt, a, b => .bits (if a < b then SPECIAL_TRUE else SPECIAL_FALSE)
  | .gt, a, b => .bits (if a > b then SPECIAL_TRUE else SPECIAL_FALSE)
  | .le, a, b => .bits (if a ≤ b then SPECIAL_TRUE else SPECIAL_FALSE)
  | .ge, a, b => .bits (if a ≥ b then SPECIAL_TRUE else SPECIAL_FALSE)

/-- The resolution invariant of the ParseFunctionObject pass: every
recorded jump operand position lies inside the code; recorded operand
positions are pairwise distinct (in jumps and in forwardRefs); every
forward reference is a recorded jump whose label is not yet in the
label map; and every recorded jump is either still pending in
forwardRefs or fully resolved — its label mapped to a target t with the
operand cell holding exactly t - (ref + 1). -/
def JumpsInv (s : PlantState) : Prop :=
  (∀ p ∈ s.jumps, p.2 < s.code.length) ∧
  (s.jumps.map Prod.snd).Nodup ∧
  (s.forwardRefs.map Prod.snd).Nodup ∧
  (∀ p ∈ s.forwardRefs, p ∈ s.jumps ∧ lookupLabel s.labelMap p.1 = none) ∧
  (∀ p ∈ s.jumps, p ∈ s.forwardRefs ∨
    ∃ t, lookupLabel s.labelMap p.1 = some t ∧
      s.code.get? p.2 = some (rawI64 ((t : Int) - ((p.2 : Int) + 1))))

/-- Lazy-flag comparison between ident arenas: every ident that is lazy
afterwards was lazy before (no false-to-true transition). -/
def identsLazyLE (after before : List Ident) : Prop :=
  ∀ j a, after.get? j = some a → a.lazy = true →
    ∃ b, before.get? j = some b ∧ b.lazy = true

/-! ## Theorems -/

theorem lor_two_of_mul_four (b : Nat) : (b * 4) ||| 2 = b * 4 + 2 := by
  have h1 : b * 4 = Nat.bit false (Nat.bit false b) := by simp [Nat.bit]; ring
  have h2 : (2 : Nat) = Nat.bit false (Nat.bit true 0) := by simp [Nat.bit]
  rw [h1, h2, Nat.lor_bit, Nat.lor_bit]
  simp [Nat.bit]
  ring

/-- Claim C6, counterexample: the bit pattern 2^62 (the double 2.0) is
finite and has both low mantissa bits zero, yet the tag/detag round
trip does not recover it — the left shift in make_tagged_float discards
the two HIGH bits of the pattern, not the low mantissa bits. -/
theorem float_low_mantissa_roundtrip_fails :
    (2 ^ 62 : Nat) % 4 = 0 ∧ isFiniteDoubleBits (2 ^ 62) = true ∧
    as_detagged_float_bits (make_tagged_float_bits (2 ^ 62)) ≠ 2 ^ 62 := by
  refine ⟨by decide, by decide, by decide⟩

/-- Claim C6, amended: the round trip
as_detagged_float(make_tagged_float(d)) recovers exactly the doubles
whose bit pattern has its two HIGH bits (the sign bit and the top
exponent bit) zero, i.e. patterns below 2^62; all such patterns are
finite doubles.  The representation sacrifices the top two bits of the
pattern, not the low two mantissa bits. -/
theorem float_roundtrip_of_high_bits_zero (b : Nat) (h : b < 2 ^ 62) :
    as_detagged_float_bits (make_tagged_float_bits b) = b := by
  unfold as_detagged_float_bits make_tagged_float_bits W64
  have hm : b * 4 % 2 ^ 64 = b * 4 := Nat.mod_eq_of_lt (by omega)
  rw [hm, lor_two_of_mul_four]
  omega

/-- Witness for the amended C6 theorem at the bit pattern of 1.0. -/
theorem float_roundtrip_witness :
    (0x3FF0000000000000 : Nat) < 2 ^ 62 ∧
    as_detagged_float_bits (make_tagged_float_bits 0x3FF0000000000000) = 0x3FF0000000000000 :=
  ⟨by decide, float_roundtrip_of_high_bits_zero 0x3FF0000000000000 (by decide)⟩

/-- Claim C1: in the lazy int-7 scenario the DONE handler does set
id.cell to the value on top of the stack (left in place), clear
in_progress and clear lazy — but it then raises a fatal run-time error
from the trailing must_be_function_value check, because tagged_int(7)
is not a function value, so the evaluation aborts instead of completing
the lazy binding. -/
theorem done_installs_value_then_faults :
    run doneScStart (1, 0) 4 =
      .fatal doneScEnd
        "Expected function object value (not a tagged pointer or datakey mismatch)"
    ∧ doneScEnd.idents =
        [{ cell := .bits (make_tagged_int 7), lazy := false, in_progress := false }] := by
  exact ⟨by decide, by decide⟩

/-- Claim C3: the strict CALL_GLOBAL_COUNTED handler derives the
argument count from the snapshot (here 2 − 1 = 1) but never compares it
with the callee's nparams (here 2) and never checks the function
datakey: the call with stack delta 1 into a 2-parameter function builds
the frame (stealing a value from below the snapshot) and the program
halts normally instead of raising a fatal arity error.  The last
conjunct shows the contrast: Machine::call_function_object — the
checked routine the source does contain, reached only through the lazy
variant — raises exactly the fatal arity error the spec prescribes when
handed the same callee and count. -/
theorem call_counted_skips_arity_check :
    run arityScStart (1, 0) 2 = .halted arityScEnd ∧
    arityScCallee.nparams = 2 ∧
    arityScStart.return_stack.get? 0 = some (.bits (make_tagged_int 1)) ∧
    (arityScStart.operand_stack.length : Int) - as_detagged_int (make_tagged_int 1) = 1 ∧
    callFunctionObject arityScStart (1, 3) (.fn 0) 1 =
      .fatal arityScStart "Function expected 2 arguments, but got 1" := by
  exact ⟨by decide, by decide, by decide, by decide, rfl⟩

/-- Claim C5: Machine::parse_function_object plants `push.local` as a
handler cell followed by exactly one operand cell, but the PUSH_LOCAL
handler body is commented out and consumes no operand, so the next
dispatch reads the operand word (a raw offset, not a handler address)
and the machine crashes: the instruction pointer does not stay on
handler-address words. -/
theorem push_local_dispatches_on_operand :
    mpParse (fun _ => none) 1 0 [{ type := "push.local", index := some 0 }] = .ok plScPlanted ∧
    plScPlanted.code = [.handlerAddr .push_local, rawI64 0, .handlerAddr .halt] ∧
    run plScStart (0, 0) 2 = .crashed plScStart := by
  refine ⟨rfl, by decide, by decide⟩

theorem recSc_step (k : Nat) :
    step (recScState k) (0, 0) = .running (recScState (k + 1)) (0, 0) := by
  simp only [step, fetch, recScState, recScStart, recScThunk, execHandler,
    getFunctionPtr, callFunctionObject, pushReturn]
  simp [moveParams, List.replicate_succ', List.flatten_append]

/-- Claim C4: a lazy identifier whose thunk re-evaluates the same
identifier does NOT make the interpreter raise a fatal error: for every
step count n the machine is still running, back at the thunk entry with
n re-entry frames stacked, and the in_progress guard is never set (the
L_IN_PROGRESS handler that would raise the error is mapped by no
opcode). -/
theorem recursive_lazy_eval_loops :
    ∀ n, run recScStart (0, 0) n = .running (recScState n) (0, 0) ∧
      (recScState n).idents =
        [{ cell := .taggedPtr 0, lazy := true, in_progress := false }] := by
  have key : ∀ n k, run (recScState k) (0, 0) n = .running (recScState (k + n)) (0, 0) := by
    intro n
    induction n with
    | zero => intro k; simp [run]
    | succ n ih =>
      intro k
      have hs : run (recScState k) (0, 0) (n + 1) = run (recScState (k + 1)) (0, 0) n := by
        simp only [run, recSc_step]
      have e : k + 1 + n = k + (n + 1) := by omega
      rw [hs, ih (k + 1), e]
  intro n
  refine ⟨?_, rfl⟩
  have h0 : recScStart = recScState 0 := rfl
  rw [h0, key n 0]
  simp

/-- Claim C9: every binary integer sys-function, called with arg_count 2
on a stack whose top two cells are tagged ints, pops exactly one cell
and overwrites the new top with the operation applied to the deeper
value as left operand and the popped top as right operand, leaving the
rest of the machine untouched and the stack one cell shorter. -/
theorem binary_int_ops_stack_contract (o : MathOp) (mach : Machine) (rest : List Cell)
    (va vb : Nat) (ha : is_tagged_int_bits va = true) (hb : is_tagged_int_bits vb = true)
    (hst : mach.operand_stack = rest ++ [.bits va, .bits vb])
    (hdiv : o = .div → as_detagged_int vb ≠ 0) :
    runMathOp o mach 2 =
      .ok { mach with operand_stack :=
              rest ++ [mathOpResult o (as_detagged_int va) (as_detagged_int vb)] } ∧
    rest.length + 2 = mach.operand_stack.length := by
  refine ⟨?_, by simp [hst]⟩
  cases o with
  | div =>
    simp [runMathOp, sys_divide, binary_int_operation, popOp, peekOp, peekSet, hst,
      Cell.isTaggedInt, ha, hb, Cell.asInt, mathOpResult, hdiv rfl]
  | add =>
    simp [runMathOp, sys_add, binary_int_operation, popOp, peekOp, peekSet, hst,
      Cell.isTaggedInt, ha, hb, Cell.asInt, mathOpResult]
  | sub =>
    simp [runMathOp, sys_subtract, binary_int_operation, popOp, peekOp, peekSet, hst,
      Cell.isTaggedInt, ha, hb, Cell.asInt, mathOpResult]
  | mul =>
    simp [runMathOp, sys_multiply, binary_int_operation, popOp, peekOp, peekSet, hst,
      Cell.isTaggedInt, ha, hb, Cell.asInt, mathOpResult]
  | lt =>
    simp [runMathOp, sys_less_than, binary_int_operation, popOp, peekOp, peekSet, hst,
      Cell.isTaggedInt, ha, hb, Cell.asInt, mathOpResult]
  | gt =>
    simp [runMathOp, sys_greater_than, binary_int_operation, popOp, peekOp, peekSet, hst,
      Cell.isTaggedInt, ha, hb, Cell.asInt, mathOpResult]
  | le =>
    simp [runMathOp, sys_less_than_or_equal_to, binary_int_operation, popOp, peekOp, peekSet,
      hst, Cell.isTaggedInt, ha, hb, Cell.asInt, mathOpResult]
  | ge =>
    simp [runMathOp, sys_greater_than_or_equal_to, binary_int_operation, popOp, peekOp, peekSet,
      hst, Cell.isTaggedInt, ha, hb, Cell.asInt, mathOpResult]

/-- Witness for C9: 10 - 3 through sys_subtract. -/
theorem binary_int_ops_witness :
    runMathOp .sub ⟨[.bits (make_tagged_int 10), .bits (make_tagged_int 3)], [], [], []⟩ 2 =
      .ok ⟨[mathOpResult .sub (as_detagged_int (make_tagged_int 10))
              (as_detagged_int (make_tagged_int 3))], [], [], []⟩ ∧
    ([] : List Cell).length + 2 = 2 :=
  binary_int_ops_stack_contract .sub
    ⟨[.bits (make_tagged_int 10), .bits (make_tagged_int 3)], [], [], []⟩ []
    (make_tagged_int 10) (make_tagged_int 3) (by decide) (by decide) rfl
    (fun h => by cases h)

/-- Claim C10: every CellStack operation, started from a state whose
size respects the capacity, either throws one of the runtime errors or
succeeds with the size still within capacity and every backing-array
index it read or wrote strictly below the capacity. -/
theorem cellstack_ops_bounds (s : CellStack) (op : StackOp) (hinv : s.size ≤ s.capacity) :
    (∃ msg, cellStackRun s op = .error msg) ∨
    (∃ s2 acc, cellStackRun s op = .ok (s2, acc) ∧ s2.capacity = s.capacity ∧
      s2.size ≤ s2.capacity ∧ ∀ x ∈ acc, x < s.capacity) := by
  cases op with
  | push v =>
    simp only [cellStackRun]
    by_cases h : s.size ≥ s.capacity
    · rw [if_pos h]; exact .inl ⟨_, rfl⟩
    · rw [if_neg h]
      exact .inr ⟨_, _, rfl, rfl, by simp; omega, by simp; omega⟩
  | pop =>
    simp only [cellStackRun]
    by_cases h : s.size = 0
    · rw [if_pos h]; exact .inl ⟨_, rfl⟩
    · rw [if_neg h]
      exact .inr ⟨_, _, rfl, rfl, by simp; omega, by simp; omega⟩
  | peek =>
    simp only [cellStackRun]
    by_cases h : s.size = 0
    · rw [if_pos h]; exact .inl ⟨_, rfl⟩
    · rw [if_neg h]
      exact .inr ⟨_, _, rfl, rfl, by omega, by simp; omega⟩
  | peekAt i =>
    simp only [cellStackRun]
    by_cases h : i ≥ s.size
    · rw [if_pos h]; exact .inl ⟨_, rfl⟩
    · rw [if_neg h]
      exact .inr ⟨_, _, rfl, rfl, by omega, by simp; omega⟩
  | popMultiple k =>
    simp only [cellStackRun]
    by_cases h : (s.size : Int) - (k : Int) < 0
    · rw [if_pos h]; exact .inl ⟨_, rfl⟩
    · rw [if_neg h]
      exact .inr ⟨_, _, rfl, rfl, by simp; omega, by simp⟩
  | resize k =>
    simp only [cellStackRun]
    by_cases h : k > s.capacity
    · rw [if_pos h]; exact .inl ⟨_, rfl⟩
    · rw [if_neg h]
      exact .inr ⟨_, _, rfl, rfl, by simp; omega, by simp⟩
  | offsetFromTop k =>
    simp only [cellStackRun]
    by_cases h : (s.size : Int) - (k : Int) ≤ 0
    · rw [if_pos h]; exact .inl ⟨_, rfl⟩
    · rw [if_neg h]
      exact .inr ⟨_, _, rfl, rfl, by omega, by simp; omega⟩

/-- Witness for C10: push onto a stack of size 3, capacity 8. -/
theorem cellstack_ops_bounds_witness :
    (∃ msg, cellStackRun ⟨8, 3, fun _ => 0⟩ (.push 5) = .error msg) ∨
    (∃ s2 acc, cellStackRun ⟨8, 3, fun _ => 0⟩ (.push 5) = .ok (s2, acc) ∧
      s2.capacity = 8 ∧ s2.size ≤ s2.capacity ∧ ∀ x ∈ acc, x < 8) :=
  cellstack_ops_bounds ⟨8, 3, fun _ => 0⟩ (.push 5) (by decide)


/-- Claim C8 counterexample. -/
theorem pop_local_plant_not_implemented :
    ppPlantInstruction machineOpcodeMap (fun _ => none)
      { nlocals := 1, nparams := 0, code := [], labelMap := [], forwardRefs := [], jumps := [] }
      .POP_LOCAL { type := "pop.local", index := some 0 } =
      .error "POP_LOCAL not yet implemented" := rfl

/-- Claim C8 amended: of the opcodes the claim lists, STACK_LENGTH,
PUSH_LOCAL and the snapshot operands of CALL_GLOBAL_COUNTED,
SYSCALL_COUNTED and DONE are planted by ParseFunctionObject with the
operand nlocals − index + 2 and read back by the interpreter as
return_stack[size − offset]; POP_LOCAL planting throws (the
counterexample), and CHECK_BOOL cannot be planted at all — its type
string has no row in string_to_opcode and its opcode has no entry in
the machine's opcode map. -/
theorem local_offset_formula (names : String → Option Nat) :
    (∀ (s : PlantState) (i : Int) (ty : String),
       ppPlantInstruction machineOpcodeMap names s .STACK_LENGTH { type := ty, index := some i } =
       .ok { s with code := s.code ++ [.handlerAddr .stack_length, rawI64 (s.nlocals - i + 2)] }) ∧
    (∀ (s : PlantState) (i : Int) (ty : String),
       ppPlantInstruction machineOpcodeMap names s .PUSH_LOCAL { type := ty, index := some i } =
       .ok { s with code := s.code ++ [.handlerAddr .push_local, rawI64 (s.nlocals - i + 2)] }) ∧
    (string_to_opcode "check.bool" = .error "Unknown instruction type: check.bool" ∧
     ∀ (s : PlantState) (inst : Instr),
       ppPlantInstruction machineOpcodeMap names s .CHECK_BOOL inst =
       .error "Opcode not found in map") ∧
    (∀ (s : PlantState) (i : Int) (ty nm : String) (j : Nat), names nm = some j →
       ppPlantInstruction machineOpcodeMap names s .CALL_GLOBAL_COUNTED
         { type := ty, index := some i, name := some nm } =
       .ok { s with code := s.code ++
               [.handlerAddr .call_global_counted, rawI64 (s.nlocals - i + 2), .identPtr j] }) ∧
    (∀ (s : PlantState) (i : Int) (ty nm : String) (sy : SysName), sysfunctions_table nm = some sy →
       ppPlantInstruction machineOpcodeMap names s .SYSCALL_COUNTED
         { type := ty, index := some i, name := some nm } =
       .ok { s with code := s.code ++
               [.handlerAddr .syscall_counted, rawI64 (s.nlocals - i + 2), .sysPtr sy] }) ∧
    (∀ (s : PlantState) (i : Int) (ty nm : String) (j : Nat), names nm = some j →
       ppPlantInstruction machineOpcodeMap names s .DONE
         { type := ty, index := some i, name := some nm } =
       .ok { s with code := s.code ++
               [.handlerAddr .done, rawI64 (s.nlocals - i + 2), .identPtr j] }) ∧
    (∀ (rs : List Cell) (nl k : Nat), k < nl → nl + 2 ≤ rs.length →
       getLocal rs ((nl : Int) - k + 2) = rs.get? (rs.length - (nl + 2) + k)) := by
  refine ⟨?_, ?_, ⟨rfl, fun s inst => rfl⟩, ?_, ?_, ?_, ?_⟩
  · intro s i ty
    simp [ppPlantInstruction, machineOpcodeMap, calc_offset, bind, Except.bind]
  · intro s i ty
    simp [ppPlantInstruction, machineOpcodeMap, calc_offset, bind, Except.bind]
  · intro s i ty nm j hnm
    simp [ppPlantInstruction, machineOpcodeMap, calc_offset, bind, Except.bind, hnm]
  · intro s i ty nm sy hsy
    simp [ppPlantInstruction, machineOpcodeMap, calc_offset, bind, Except.bind, hsy]
  · intro s i ty nm j hnm
    simp [ppPlantInstruction, machineOpcodeMap, calc_offset, bind, Except.bind, hnm]
  · intro rs nl k hk hlen
    have hcond : 0 ≤ (rs.length : Int) - ((nl : Int) - (k : Int) + 2) ∧
        (rs.length : Int) - ((nl : Int) - (k : Int) + 2) < (rs.length : Int) := by omega
    simp only [getLocal]
    rw [if_pos hcond]
    congr 1
    omega

/-- Witness for C8 amended. -/
theorem local_offset_formula_witness :
    (ppPlantInstruction machineOpcodeMap (fun _ => some 0)
      { nlocals := 3, nparams := 1, code := [], labelMap := [], forwardRefs := [], jumps := [] }
      .STACK_LENGTH { type := "stack.length", index := some 1 } =
      .ok { nlocals := 3, nparams := 1,
            code := [.handlerAddr .stack_length, rawI64 ((3 : Int) - 1 + 2)],
            labelMap := [], forwardRefs := [], jumps := [] }) ∧
    getLocal [nilCell, .bits 8, nilCell, .rawFuncPtr 0, .codePtr 0 0]
      (((3 : Nat) : Int) - ((1 : Nat) : Int) + 2) = some (.bits 8) := by
  have h := local_offset_formula (fun _ => some 0)
  refine ⟨h.1 _ 1 "stack.length", ?_⟩
  have h2 := h.2.2.2.2.2.2 [nilCell, .bits 8, nilCell, .rawFuncPtr 0, .codePtr 0 0] 3 1
    (by omega) (by simp)
  exact h2.trans rfl


theorem identsLazyLE_refl (I : List Ident) : identsLazyLE I I :=
  fun j a h hl => ⟨a, h, hl⟩

theorem identsLazyLE_trans {I J K : List Ident}
    (h1 : identsLazyLE I J) (h2 : identsLazyLE J K) : identsLazyLE I K := by
  intro j a ha hl
  obtain ⟨b, hb, hbl⟩ := h1 j a ha hl
  exact h2 j b hb hbl

theorem identsLazyLE_of_eq {I J : List Ident} (h : I = J) : identsLazyLE I J :=
  h ▸ identsLazyLE_refl J

theorem identsLazyLE_set_lazy_false (I : List Ident) (j : Nat) (v : Ident)
    (hv : v.lazy = false) : identsLazyLE (I.set j v) I := by
  intro j2 a ha hl
  rw [List.get?_set] at ha
  by_cases he : j = j2
  · rw [if_pos he] at ha
    obtain ⟨b, hb, hba⟩ := Option.map_eq_some'.1 ha
    rw [← hba] at hl
    rw [hv] at hl
    cases hl
  · rw [if_neg he] at ha
    exact ⟨a, ha, hl⟩

theorem identsLazyLE_set_same_lazy (I : List Ident) (j : Nat) (a v : Ident)
    (ha : I.get? j = some a) (hv : v.lazy = a.lazy) : identsLazyLE (I.set j v) I := by
  intro j2 b hb hl
  rw [List.get?_set] at hb
  by_cases he : j = j2
  · rw [if_pos he] at hb
    subst he
    obtain ⟨c, _, hcb⟩ := Option.map_eq_some'.1 hb
    refine ⟨a, ha, ?_⟩
    rw [← hcb, hv] at hl
    exact hl
  · rw [if_neg he] at hb
    exact ⟨b, hb, hl⟩

theorem popOp_ok_idents {m : Machine} {v : Cell} {m1 : Machine}
    (h : popOp m = .ok (v, m1)) : m1.idents = m.idents := by
  unfold popOp at h
  cases hgl : m.operand_stack.getLast? <;> rw [hgl] at h
  · cases h
  · cases h; rfl

theorem popReturn_ok_idents {m : Machine} {v : Cell} {m1 : Machine}
    (h : popReturn m = .ok (v, m1)) : m1.idents = m.idents := by
  unfold popReturn at h
  cases hgl : m.return_stack.getLast? <;> rw [hgl] at h
  · cases h
  · cases h; rfl

theorem moveParams_mach_idents (k : Nat) :
    ∀ m : Machine, (moveParams k m).mach.idents = m.idents := by
  induction k with
  | zero => intro m; rfl
  | succ k ih =>
    intro m
    simp only [moveParams]
    cases hp : popOp m with
    | error msg => rfl
    | ok vm =>
      obtain ⟨v, m1⟩ := vm
      have h1 : m1.idents = m.idents := popOp_ok_idents hp
      rw [ih (pushReturn m1 v)]
      simpa [pushReturn] using h1

theorem callFunctionObject_idents (m : Machine) (ret : CodeAddr) (p : HeapPtr) (a : Nat) :
    (callFunctionObject m ret p a).mach.idents = m.idents := by
  unfold callFunctionObject
  cases p with
  | str s => rfl
  | wild => rfl
  | fn f =>
    dsimp only
    cases m.funcs.get? f with
    | none => rfl
    | some fo =>
      dsimp only
      by_cases h : a ≠ fo.nparams
      · rw [if_pos h]; rfl
      · rw [if_neg h]
        cases hm : moveParams fo.nparams
            { m with return_stack :=
                m.return_stack ++ List.replicate (fo.nlocals - fo.nparams) nilCell } with
        | error em =>
          obtain ⟨msg, m2⟩ := em
          have hmm := moveParams_mach_idents fo.nparams
            { m with return_stack :=
                m.return_stack ++ List.replicate (fo.nlocals - fo.nparams) nilCell }
          rw [hm] at hmm
          exact hmm
        | ok m2 =>
          have hmm := moveParams_mach_idents fo.nparams
            { m with return_stack :=
                m.return_stack ++ List.replicate (fo.nlocals - fo.nparams) nilCell }
          rw [hm] at hmm
          exact hmm

theorem launchInstruction_idents (m : Machine) (f i : Nat) :
    (launchInstruction m f i).mach.idents = m.idents := by
  unfold launchInstruction
  cases fetch m f (i + 1) with
  | none => rfl
  | some c =>
    cases c with
    | rawFuncPtr g =>
      dsimp only
      cases m.funcs.get? g with
      | none => rfl
      | some fo =>
        dsimp only
        cases hm : moveParams fo.nparams
            { m with return_stack :=
                m.return_stack ++ List.replicate (fo.nlocals - fo.nparams) nilCell } with
        | error em =>
          obtain ⟨msg, m2⟩ := em
          have hmm := moveParams_mach_idents fo.nparams
            { m with return_stack :=
                m.return_stack ++ List.replicate (fo.nlocals - fo.nparams) nilCell }
          rw [hm] at hmm
          exact hmm
        | ok m2 =>
          have hmm := moveParams_mach_idents fo.nparams
            { m with return_stack :=
                m.return_stack ++ List.replicate (fo.nlocals - fo.nparams) nilCell }
          rw [hm] at hmm
          exact hmm
    | bits v => rfl
    | taggedPtr g => rfl
    | strPtr s => rfl
    | handlerAddr h => rfl
    | identPtr j => rfl
    | sysPtr s => rfl
    | codePtr a b => rfl

theorem binary_int_operation_idents (op : Int → Int → Except String Cell)
    (nm sym : String) (mach : Machine) (nargs : Nat) :
    (binary_int_operation op nm sym mach nargs).mach.idents = mach.idents := by
  unfold binary_int_operation
  by_cases h2 : nargs ≠ 2
  · rw [if_pos h2]; rfl
  · rw [if_neg h2]
    cases hp : popOp mach with
    | error msg => rfl
    | ok vm =>
      obtain ⟨n, mach1⟩ := vm
      dsimp only
      have h1 : mach1.idents = mach.idents := popOp_ok_idents hp
      cases peekOp mach1 with
      | error msg => exact h1
      | ok mc =>
        dsimp only
        by_cases ht : (!(n.isTaggedInt && mc.isTaggedInt)) = true
        · rw [if_pos ht]; exact h1
        · rw [if_neg ht]
          cases op mc.asInt n.asInt with
          | error msg => exact h1
          | ok result => exact h1

theorem sys_println_idents (mach : Machine) :
    (sys_println mach).mach.idents = mach.idents := by
  unfold sys_println
  by_cases he : mach.operand_stack.isEmpty = true
  · rw [if_pos he]; rfl
  · rw [if_neg he]
    cases hp : popOp mach with
    | error msg => rfl
    | ok vm =>
      obtain ⟨c, mach1⟩ := vm
      dsimp only
      have h1 : mach1.idents = mach.idents := popOp_ok_idents hp
      by_cases ht : (!c.isTaggedInt) = true
      · rw [if_pos ht]; exact h1
      · rw [if_neg ht]
        by_cases hn : c.asInt < 0
        · rw [if_pos hn]; exact h1
        · rw [if_neg hn]
          by_cases hl : (mach1.operand_stack.length : Int) < c.asInt
          · rw [if_pos hl]; exact h1
          · rw [if_neg hl]; exact h1

theorem sys_negate_idents (mach : Machine) (nargs : Nat) :
    (sys_negate mach nargs).mach.idents = mach.idents := by
  unfold sys_negate
  by_cases h2 : nargs ≠ 2
  · rw [if_pos h2]; rfl
  · rw [if_neg h2]
    cases peekOp mach with
    | error msg => rfl
    | ok x =>
      dsimp only
      by_cases ht : (!x.isTaggedInt) = true
      · rw [if_pos ht]; rfl
      · rw [if_neg ht]; rfl

theorem sysCall_idents (s : SysName) (mach : Machine) (nargs : Nat) :
    (sysCall s mach nargs).mach.idents = mach.idents := by
  cases s with
  | println => exact sys_println_idents mach
  | negate => exact sys_negate_idents mach nargs
  | add =>
    unfold sysCall sys_add
    exact binary_int_operation_idents _ _ _ mach nargs
  | subtract =>
    unfold sysCall sys_subtract
    exact binary_int_operation_idents _ _ _ mach nargs
  | multiply =>
    unfold sysCall sys_multiply
    exact binary_int_operation_idents _ _ _ mach nargs
  | divide =>
    unfold sysCall sys_divide
    exact binary_int_operation_idents _ _ _ mach nargs
  | less_than =>
    unfold sysCall sys_less_than
    exact binary_int_operation_idents _ _ _ mach nargs
  | greater_than =>
    unfold sysCall sys_greater_than
    exact binary_int_operation_idents _ _ _ mach nargs
  | less_equal =>
    unfold sysCall sys_less_than_or_equal_to
    exact binary_int_operation_idents _ _ _ mach nargs
  | greater_equal =>
    unfold sysCall sys_greater_than_or_equal_to
    exact binary_int_operation_idents _ _ _ mach nargs


theorem execHandler_lazyLE (h : Handler) (m : Machine) (f i : Nat) :
    identsLazyLE (execHandler h m f i).mach.idents m.idents := by
  cases h with
  | push_int =>
    unfold execHandler
    cases fetch m f (i + 1) with
    | none => exact identsLazyLE_refl _
    | some c => cases c <;> exact identsLazyLE_refl _
  | push_string =>
    unfold execHandler
    cases fetch m f (i + 1) with
    | none => exact identsLazyLE_refl _
    | some c => exact identsLazyLE_refl _
  | pop_local => exact identsLazyLE_refl _
  | push_local => exact identsLazyLE_refl _
  | in_progress =>
    unfold execHandler
    cases fetch m f (i + 1) with
    | none => exact identsLazyLE_refl _
    | some c =>
      cases c with
      | identPtr j =>
        dsimp only
        cases hj : m.idents.get? j with
        | none => exact identsLazyLE_refl _
        | some id =>
          dsimp only
          by_cases hip : id.in_progress = true
          · rw [if_pos hip]; exact identsLazyLE_refl _
          · rw [if_neg hip]
            exact identsLazyLE_set_same_lazy _ _ _ _ hj rfl
      | bits v => exact identsLazyLE_refl _
      | taggedPtr g => exact identsLazyLE_refl _
      | strPtr sv => exact identsLazyLE_refl _
      | handlerAddr hv => exact identsLazyLE_refl _
      | sysPtr sv => exact identsLazyLE_refl _
      | rawFuncPtr g => exact identsLazyLE_refl _
      | codePtr a b => exact identsLazyLE_refl _
  | done =>
    unfold execHandler
    cases fetch m f (i + 1) with
    | none => exact identsLazyLE_refl _
    | some c =>
      cases c with
      | bits offv =>
        dsimp only
        cases getLocal m.return_stack (toInt64 offv) with
        | none => exact identsLazyLE_refl _
        | some snapCell =>
          dsimp only
          cases snapCell.detagInt with
          | none => exact identsLazyLE_refl _
          | some snap =>
            dsimp only
            by_cases hc : ((m.operand_stack.length : Int) - snap).emod (W64 : Int) ≠ 1
            · rw [if_pos hc]; exact identsLazyLE_refl _
            · rw [if_neg hc]
              cases fetch m f (i + 2) with
              | none => exact identsLazyLE_refl _
              | some c2 =>
                cases c2 with
                | identPtr j =>
                  dsimp only
                  cases m.idents.get? j with
                  | none => exact identsLazyLE_refl _
                  | some id0 =>
                    dsimp only
                    cases m.operand_stack.getLast? with
                    | none => exact identsLazyLE_refl _
                    | some top =>
                      dsimp only
                      by_cases hF : isFunctionValue
                          (setIdent m j { cell := top, lazy := false, in_progress := false })
                          top = true
                      · rw [if_pos hF]
                        exact identsLazyLE_set_lazy_false _ _ _ rfl
                      · rw [if_neg hF]
                        exact identsLazyLE_set_lazy_false _ _ _ rfl
                | bits v => exact identsLazyLE_refl _
                | taggedPtr g => exact identsLazyLE_refl _
                | strPtr sv => exact identsLazyLE_refl _
                | handlerAddr hv => exact identsLazyLE_refl _
                | sysPtr sv => exact identsLazyLE_refl _
                | rawFuncPtr g => exact identsLazyLE_refl _
                | codePtr a b => exact identsLazyLE_refl _
      | taggedPtr g => exact identsLazyLE_refl _
      | strPtr sv => exact identsLazyLE_refl _
      | handlerAddr hv => exact identsLazyLE_refl _
      | identPtr j => exact identsLazyLE_refl _
      | sysPtr sv => exact identsLazyLE_refl _
      | rawFuncPtr g => exact identsLazyLE_refl _
      | codePtr a b => exact identsLazyLE_refl _
  | push_global_lazy =>
    unfold execHandler
    cases fetch m f (i + 1) with
    | none => exact identsLazyLE_refl _
    | some c =>
      cases c with
      | identPtr j =>
        dsimp only
        cases m.idents.get? j with
        | none => exact identsLazyLE_refl _
        | some id =>
          dsimp only
          by_cases hl : id.lazy = true
          · rw [if_pos hl]
            cases getFunctionPtr id.cell with
            | error msg => exact identsLazyLE_refl _
            | ok p =>
              exact identsLazyLE_of_eq (callFunctionObject_idents m (f, i + 2) p 0)
          · rw [if_neg hl]
            exact identsLazyLE_refl _
      | bits v => exact identsLazyLE_refl _
      | taggedPtr g => exact identsLazyLE_refl _
      | strPtr sv => exact identsLazyLE_refl _
      | handlerAddr hv => exact identsLazyLE_refl _
      | sysPtr sv => exact identsLazyLE_refl _
      | rawFuncPtr g => exact identsLazyLE_refl _
      | codePtr a b => exact identsLazyLE_refl _
  | push_global =>
    unfold execHandler
    cases fetch m f (i + 1) with
    | none => exact identsLazyLE_refl _
    | some c =>
      cases c with
      | identPtr j =>
        dsimp only
        cases m.idents.get? j with
        | none => exact identsLazyLE_refl _
        | some id => exact identsLazyLE_refl _
      | bits v => exact identsLazyLE_refl _
      | taggedPtr g => exact identsLazyLE_refl _
      | strPtr sv => exact identsLazyLE_refl _
      | handlerAddr hv => exact identsLazyLE_refl _
      | sysPtr sv => exact identsLazyLE_refl _
      | rawFuncPtr g => exact identsLazyLE_refl _
      | codePtr a b => exact identsLazyLE_refl _
  | call_global_counted_lazy =>
    unfold execHandler
    cases fetch m f (i + 1) with
    | none => exact identsLazyLE_refl _
    | some c =>
      cases c with
      | bits offv =>
        dsimp only
        cases fetch m f (i + 2) with
        | none => exact identsLazyLE_refl _
        | some c2 =>
          cases c2 with
          | identPtr j =>
            dsimp only
            cases m.idents.get? j with
            | none => exact identsLazyLE_refl _
            | some id =>
              dsimp only
              by_cases hl : id.lazy = true
              · rw [if_pos hl]
                cases getFunctionPtr id.cell with
                | error msg => exact identsLazyLE_refl _
                | ok p =>
                  exact identsLazyLE_of_eq (callFunctionObject_idents m (f, i + 3) p 0)
              · rw [if_neg hl]
                exact identsLazyLE_refl _
          | bits v => exact identsLazyLE_refl _
          | taggedPtr g => exact identsLazyLE_refl _
          | strPtr sv => exact identsLazyLE_refl _
          | handlerAddr hv => exact identsLazyLE_refl _
          | sysPtr sv => exact identsLazyLE_refl _
          | rawFuncPtr g => exact identsLazyLE_refl _
          | codePtr a b => exact identsLazyLE_refl _
      | taggedPtr g => exact identsLazyLE_refl _
      | strPtr sv => exact identsLazyLE_refl _
      | handlerAddr hv => exact identsLazyLE_refl _
      | identPtr j => exact identsLazyLE_refl _
      | sysPtr sv => exact identsLazyLE_refl _
      | rawFuncPtr g => exact identsLazyLE_refl _
      | codePtr a b => exact identsLazyLE_refl _
  | call_global_counted =>
    unfold execHandler
    cases fetch m f (i + 1) with
    | none => exact identsLazyLE_refl _
    | some c =>
      cases c with
      | bits offv =>
        dsimp only
        cases getLocal m.return_stack (toInt64 offv) with
        | none => exact identsLazyLE_refl _
        | some snapCell =>
          dsimp only
          cases snapCell.detagInt with
          | none => exact identsLazyLE_refl _
          | some snap =>
            dsimp only
            cases fetch m f (i + 2) with
            | none => exact identsLazyLE_refl _
            | some c2 =>
              cases c2 with
              | identPtr j =>
                dsimp only
                cases m.idents.get? j with
                | none => exact identsLazyLE_refl _
                | some id =>
                  dsimp only
                  cases getFunctionPtr id.cell with
                  | error msg => exact identsLazyLE_refl _
                  | ok p =>
                    cases p with
                    | fn g =>
                      dsimp only
                      cases m.funcs.get? g with
                      | none => exact identsLazyLE_refl _
                      | some fo =>
                        dsimp only
                        cases hm : moveParams fo.nparams
                            { m with return_stack := m.return_stack
                                ++ List.replicate (fo.nlocals - fo.nparams) nilCell } with
                        | error em =>
                          obtain ⟨msg, m2⟩ := em
                          have hmm := moveParams_mach_idents fo.nparams
                            { m with return_stack := m.return_stack
                                ++ List.replicate (fo.nlocals - fo.nparams) nilCell }
                          rw [hm] at hmm
                          exact identsLazyLE_of_eq hmm
                        | ok m2 =>
                          have hmm := moveParams_mach_idents fo.nparams
                            { m with return_stack := m.return_stack
                                ++ List.replicate (fo.nlocals - fo.nparams) nilCell }
                          rw [hm] at hmm
                          exact identsLazyLE_of_eq hmm
                    | str sv => exact identsLazyLE_refl _
                    | wild => exact identsLazyLE_refl _
              | bits v => exact identsLazyLE_refl _
              | taggedPtr g => exact identsLazyLE_refl _
              | strPtr sv => exact identsLazyLE_refl _
              | handlerAddr hv => exact identsLazyLE_refl _
              | sysPtr sv => exact identsLazyLE_refl _
              | rawFuncPtr g => exact identsLazyLE_refl _
              | codePtr a b => exact identsLazyLE_refl _
      | taggedPtr g => exact identsLazyLE_refl _
      | strPtr sv => exact identsLazyLE_refl _
      | handlerAddr hv => exact identsLazyLE_refl _
      | identPtr j => exact identsLazyLE_refl _
      | sysPtr sv => exact identsLazyLE_refl _
      | rawFuncPtr g => exact identsLazyLE_refl _
      | codePtr a b => exact identsLazyLE_refl _
  | syscall_counted =>
    unfold execHandler
    cases fetch m f (i + 1) with
    | none => exact identsLazyLE_refl _
    | some c =>
      cases c with
      | bits offv =>
        dsimp only
        cases getLocal m.return_stack (toInt64 offv) with
        | none => exact identsLazyLE_refl _
        | some snapCell =>
          dsimp only
          cases snapCell.detagInt with
          | none => exact identsLazyLE_refl _
          | some snap =>
            dsimp only
            cases fetch m f (i + 2) with
            | none => exact identsLazyLE_refl _
            | some c2 =>
              cases c2 with
              | sysPtr sv =>
                dsimp only
                cases hs : sysCall sv m
                    (ofInt64 (toInt32 (((m.operand_stack.length : Int) - snap).emod
                      (W64 : Int)).toNat)) with
                | error em =>
                  obtain ⟨msg, m1⟩ := em
                  have hss := sysCall_idents sv m
                    (ofInt64 (toInt32 (((m.operand_stack.length : Int) - snap).emod
                      (W64 : Int)).toNat))
                  rw [hs] at hss
                  exact identsLazyLE_of_eq hss
                | ok m1 =>
                  have hss := sysCall_idents sv m
                    (ofInt64 (toInt32 (((m.operand_stack.length : Int) - snap).emod
                      (W64 : Int)).toNat))
                  rw [hs] at hss
                  exact identsLazyLE_of_eq hss
              | bits v => exact identsLazyLE_refl _
              | taggedPtr g => exact identsLazyLE_refl _
              | strPtr sv => exact identsLazyLE_refl _
              | handlerAddr hv => exact identsLazyLE_refl _
              | identPtr j => exact identsLazyLE_refl _
              | rawFuncPtr g => exact identsLazyLE_refl _
              | codePtr a b => exact identsLazyLE_refl _
      | taggedPtr g => exact identsLazyLE_refl _
      | strPtr sv => exact identsLazyLE_refl _
      | handlerAddr hv => exact identsLazyLE_refl _
      | identPtr j => exact identsLazyLE_refl _
      | sysPtr sv => exact identsLazyLE_refl _
      | rawFuncPtr g => exact identsLazyLE_refl _
      | codePtr a b => exact identsLazyLE_refl _
  | stack_length =>
    unfold execHandler
    cases fetch m f (i + 1) with
    | none => exact identsLazyLE_refl _
    | some c =>
      cases c with
      | bits offv =>
        dsimp only
        cases setLocal m.return_stack (toInt64 offv)
            (.bits (make_tagged_int (m.operand_stack.length : Int))) with
        | none => exact identsLazyLE_refl _
        | some rs1 => exact identsLazyLE_refl _
      | taggedPtr g => exact identsLazyLE_refl _
      | strPtr sv => exact identsLazyLE_refl _
      | handlerAddr hv => exact identsLazyLE_refl _
      | identPtr j => exact identsLazyLE_refl _
      | sysPtr sv => exact identsLazyLE_refl _
      | rawFuncPtr g => exact identsLazyLE_refl _
      | codePtr a b => exact identsLazyLE_refl _
  | ret =>
    unfold execHandler
    cases hp1 : popReturn m with
    | error msg => exact identsLazyLE_refl _
    | ok vm1 =>
      obtain ⟨retCell, m1⟩ := vm1
      dsimp only
      have e1 : m1.idents = m.idents := popReturn_ok_idents hp1
      cases hp2 : popReturn m1 with
      | error msg => exact identsLazyLE_of_eq e1
      | ok vm2 =>
        obtain ⟨fo_cell, m2⟩ := vm2
        dsimp only
        have e2 : m2.idents = m.idents := (popReturn_ok_idents hp2).trans e1
        cases fo_cell with
        | rawFuncPtr g =>
          dsimp only
          cases m2.funcs.get? g with
          | none => exact identsLazyLE_of_eq e2
          | some fo =>
            dsimp only
            by_cases hlen : m2.return_stack.length < fo.nlocals
            · rw [if_pos hlen]; exact identsLazyLE_of_eq e2
            · rw [if_neg hlen]
              cases retCell with
              | codePtr rf ri => exact identsLazyLE_of_eq e2
              | bits v => exact identsLazyLE_of_eq e2
              | taggedPtr g2 => exact identsLazyLE_of_eq e2
              | strPtr sv => exact identsLazyLE_of_eq e2
              | handlerAddr hv => exact identsLazyLE_of_eq e2
              | identPtr j => exact identsLazyLE_of_eq e2
              | sysPtr sv => exact identsLazyLE_of_eq e2
              | rawFuncPtr g2 => exact identsLazyLE_of_eq e2
        | bits v => exact identsLazyLE_of_eq e2
        | taggedPtr g => exact identsLazyLE_of_eq e2
        | strPtr sv => exact identsLazyLE_of_eq e2
        | handlerAddr hv => exact identsLazyLE_of_eq e2
        | identPtr j => exact identsLazyLE_of_eq e2
        | sysPtr sv => exact identsLazyLE_of_eq e2
        | codePtr a b => exact identsLazyLE_of_eq e2
  | halt => exact identsLazyLE_refl _
  | launch => exact identsLazyLE_of_eq (launchInstruction_idents m f i)
  | goto_label => exact identsLazyLE_refl _
  | if_not_label => exact identsLazyLE_refl _
  | check_bool_label => exact identsLazyLE_refl _


theorem fetch_setIdent (m : Machine) (j : Nat) (v : Ident) (f i : Nat) :
    fetch (setIdent m j v) f i = fetch m f i := rfl

theorem step_lazyLE (m : Machine) (pc : CodeAddr) :
    identsLazyLE (step m pc).mach.idents m.idents := by
  unfold step
  cases fetch m pc.1 pc.2 with
  | none => exact identsLazyLE_refl _
  | some c =>
    cases c with
    | handlerAddr h => exact execHandler_lazyLE h m pc.1 pc.2
    | bits v => exact identsLazyLE_refl _
    | taggedPtr g => exact identsLazyLE_refl _
    | strPtr sv => exact identsLazyLE_refl _
    | identPtr j => exact identsLazyLE_refl _
    | sysPtr sv => exact identsLazyLE_refl _
    | rawFuncPtr g => exact identsLazyLE_refl _
    | codePtr a b => exact identsLazyLE_refl _

theorem run_lazyLE (n : Nat) : ∀ (m : Machine) (pc : CodeAddr),
    identsLazyLE (run m pc n).mach.idents m.idents := by
  induction n with
  | zero => intro m pc; exact identsLazyLE_refl _
  | succ n ih =>
    intro m pc
    unfold run
    cases hs : step m pc with
    | running m1 pc1 =>
      have h1 : identsLazyLE m1.idents m.idents := by
        have hh := step_lazyLE m pc
        rw [hs] at hh
        exact hh
      exact identsLazyLE_trans (ih m1 pc1) h1
    | halted m1 =>
      have hh := step_lazyLE m pc
      rw [hs] at hh
      exact hh
    | fatal m1 msg =>
      have hh := step_lazyLE m pc
      rw [hs] at hh
      exact hh
    | crashed m1 =>
      have hh := step_lazyLE m pc
      rw [hs] at hh
      exact hh

theorem done_running_clears_lazy (m : Machine) (f i j : Nat) (m1 : Machine) (pc1 : CodeAddr)
    (h1 : fetch m f i = some (.handlerAddr .done))
    (h2 : fetch m f (i + 2) = some (.identPtr j))
    (hstep : step m (f, i) = .running m1 pc1) :
    ∃ v, m.operand_stack.getLast? = some v ∧ isFunctionValue m1 v = true ∧
      m1.idents.get? j = some { cell := v, lazy := false, in_progress := false } ∧
      pc1 = (f, i + 3) := by
  have hs : execHandler .done m f i = .running m1 pc1 := by
    simpa [step, h1] using hstep
  simp only [execHandler] at hs
  rw [h2] at hs
  cases hoff : fetch m f (i + 1) with
  | none => rw [hoff] at hs; exact Outcome.noConfusion hs
  | some c =>
    rw [hoff] at hs
    cases c
    case bits offv =>
      dsimp only at hs
      cases hloc : getLocal m.return_stack (toInt64 offv) with
      | none => rw [hloc] at hs; exact Outcome.noConfusion hs
      | some snapCell =>
        rw [hloc] at hs
        dsimp only at hs
        cases hdt : snapCell.detagInt with
        | none => rw [hdt] at hs; exact Outcome.noConfusion hs
        | some snap =>
          rw [hdt] at hs
          dsimp only at hs
          split at hs
          · exact Outcome.noConfusion hs
          · cases hid : m.idents.get? j with
            | none => rw [hid] at hs; exact Outcome.noConfusion hs
            | some idr =>
              rw [hid] at hs
              dsimp only at hs
              cases htop : m.operand_stack.getLast? with
              | none => rw [htop] at hs; exact Outcome.noConfusion hs
              | some top =>
                rw [htop] at hs
                dsimp only at hs
                split at hs
                · rename_i hfv
                  injection hs with hm hpc
                  subst hm
                  subst hpc
                  refine ⟨top, rfl, hfv, ?_, rfl⟩
                  simp only [setIdent]
                  rw [List.get?_set, if_pos rfl, hid]
                  rfl
                · exact Outcome.noConfusion hs
    all_goals (dsimp only at hs; exact Outcome.noConfusion hs)

/-- Claim C2: during execution an Ident's lazy flag is monotone (it
never goes false → true, so it falls true → false at most once); a
completing DONE dispatch — the end of a successful evaluation —
installs the evaluated value in the target Ident with lazy = false (and
in_progress = false); both lazy-variant call-site handlers, on an ident
whose flag is already false, rewrite their own handler cell in place to
the strict variant and rewind the program counter; and the strict
PUSH_GLOBAL handler's outcome does not consult the lazy flag at all. -/
theorem lazy_promotion_protocol :
    (∀ (m : Machine) (pc : CodeAddr) (n : Nat),
       identsLazyLE (run m pc n).mach.idents m.idents) ∧
    (∀ (m : Machine) (f i j : Nat) (idr : Ident),
       fetch m f i = some (.handlerAddr .push_global_lazy) →
       fetch m f (i + 1) = some (.identPtr j) →
       m.idents.get? j = some idr → idr.lazy = false →
       step m (f, i) = .running (setCode m f i (.handlerAddr .push_global)) (f, i)) ∧
    (∀ (m : Machine) (f i j : Nat) (idr : Ident) (v : Nat),
       fetch m f i = some (.handlerAddr .call_global_counted_lazy) →
       fetch m f (i + 1) = some (.bits v) →
       fetch m f (i + 2) = some (.identPtr j) →
       m.idents.get? j = some idr → idr.lazy = false →
       step m (f, i) = .running (setCode m f i (.handlerAddr .call_global_counted)) (f, i)) ∧
    (∀ (m : Machine) (f i j : Nat) (idr : Ident) (b : Bool),
       fetch m f i = some (.handlerAddr .push_global) →
       fetch m f (i + 1) = some (.identPtr j) →
       m.idents.get? j = some idr →
       step (setIdent m j { idr with lazy := b }) (f, i) =
         .running (pushOp (setIdent m j { idr with lazy := b }) idr.cell) (f, i + 2)) ∧
    (∀ (m : Machine) (f i j : Nat) (m1 : Machine) (pc1 : CodeAddr),
       fetch m f i = some (.handlerAddr .done) →
       fetch m f (i + 2) = some (.identPtr j) →
       step m (f, i) = .running m1 pc1 →
       ∃ v, m.operand_stack.getLast? = some v ∧ isFunctionValue m1 v = true ∧
         m1.idents.get? j = some { cell := v, lazy := false, in_progress := false } ∧
         pc1 = (f, i + 3)) := by
  refine ⟨fun m pc n => run_lazyLE n m pc, ?_, ?_, ?_,
    fun m f i j m1 pc1 => done_running_clears_lazy m f i j m1 pc1⟩
  · intro m f i j idr h1 h2 h3 h4
    have h3g : m.idents[j]? = some idr := by
      rw [← List.get?_eq_getElem?]; exact h3
    simp [step, execHandler, h1, h2, h3g, h4]
  · intro m f i j idr v h1 h2 h3 h4 h5
    have h4g : m.idents[j]? = some idr := by
      rw [← List.get?_eq_getElem?]; exact h4
    simp [step, execHandler, h1, h2, h3, h4g, h5]
  · intro m f i j idr b h1 h2 h3
    have hl : j < m.idents.length := by
      obtain ⟨hlt, _⟩ := List.get?_eq_some.1 h3
      exact hlt
    have hg : (setIdent m j { idr with lazy := b }).idents[j]? =
        some { idr with lazy := b } := by
      simp only [setIdent]
      exact List.getElem?_set_eq_of_lt _ hl
    simp [step, execHandler, fetch_setIdent, h1, h2, hg]


/-- Witness for C2 at concrete machines: the lazy sites over an ident
whose lazy flag is already false rewrite themselves in place and rewind,
the strict handler's outcome is the same for either value of the flag,
and a completing DONE leaves its target Ident holding the evaluated
value with lazy = false. -/
theorem lazy_promotion_protocol_witness :
    identsLazyLE (run rwScStart (0, 0) 2).mach.idents rwScStart.idents ∧
    step rwScStart (0, 0) =
      .running (setCode rwScStart 0 0 (.handlerAddr .push_global)) (0, 0) ∧
    step rwScStart (0, 3) =
      .running (setCode rwScStart 0 3 (.handlerAddr .call_global_counted)) (0, 3) ∧
    step (setIdent rwScStart 0 { cell := .taggedPtr 0, lazy := true, in_progress := false })
        (0, 6) =
      .running
        (pushOp (setIdent rwScStart 0
          { cell := .taggedPtr 0, lazy := true, in_progress := false }) (.taggedPtr 0))
        (0, 8) ∧
    (∃ v, dnScStart.operand_stack.getLast? = some v ∧
      isFunctionValue (setIdent dnScStart 0
        { cell := .taggedPtr 1, lazy := false, in_progress := false }) v = true ∧
      (setIdent dnScStart 0
        { cell := .taggedPtr 1, lazy := false, in_progress := false }).idents.get? 0 =
        some { cell := v, lazy := false, in_progress := false } ∧
      ((0 : Nat), (3 : Nat)) = ((0 : Nat), 0 + 3)) := by
  obtain ⟨h1, h2, h3, h4, h5⟩ := lazy_promotion_protocol
  refine ⟨h1 rwScStart (0, 0) 2, ?_, ?_, ?_, ?_⟩
  · exact h2 rwScStart 0 0 0 { cell := .taggedPtr 0, lazy := false, in_progress := false }
      rfl rfl rfl rfl
  · exact h3 rwScStart 0 3 0 { cell := .taggedPtr 0, lazy := false, in_progress := false }
      (ofInt64 3) rfl rfl rfl rfl rfl
  · exact h4 rwScStart 0 6 0 { cell := .taggedPtr 0, lazy := false, in_progress := false }
      true rfl rfl rfl
  · exact h5 dnScStart 0 0 0
      (setIdent dnScStart 0 { cell := .taggedPtr 1, lazy := false, in_progress := false })
      ((0 : Nat), (3 : Nat)) rfl rfl rfl


theorem lookupLabel_cons_eq (lm : List (String × Nat)) (nm : String) (t : Nat) :
    lookupLabel ((nm, t) :: lm) nm = some t := by
  simp [lookupLabel, List.find?]

theorem lookupLabel_cons_ne (lm : List (String × Nat)) (nm x : String) (t : Nat)
    (h : x ≠ nm) : lookupLabel ((nm, t) :: lm) x = lookupLabel lm x := by
  have hd : decide (nm = x) = false := decide_eq_false (fun he => h he.symm)
  simp [lookupLabel, List.find?, hd]

theorem foldl_set_length (v : Nat → Cell) :
    ∀ (refs : List Nat) (code : List Cell),
      (refs.foldl (fun c r => c.set r (v r)) code).length = code.length := by
  intro refs
  induction refs with
  | nil => intro code; rfl
  | cons r rest ih => intro code; simp only [List.foldl_cons]; rw [ih]; simp

theorem foldl_set_get? (v : Nat → Cell) :
    ∀ (refs : List Nat) (code : List Cell), refs.Nodup →
      (∀ r ∈ refs, r < code.length) →
      ∀ x, (refs.foldl (fun c r => c.set r (v r)) code).get? x =
        if x ∈ refs then some (v x) else code.get? x := by
  intro refs
  induction refs with
  | nil => intro code _ _ x; simp
  | cons r0 rest ih =>
    intro code hnd hbnd x
    simp only [List.foldl_cons]
    have hnd2 : rest.Nodup := (List.nodup_cons.1 hnd).2
    have hr0 : r0 ∉ rest := (List.nodup_cons.1 hnd).1
    have hbnd2 : ∀ r ∈ rest, r < (code.set r0 (v r0)).length := by
      intro r hr
      rw [List.length_set]
      exact hbnd r (List.mem_cons.2 (Or.inr hr))
    rw [ih (code.set r0 (v r0)) hnd2 hbnd2 x]
    by_cases hx : x ∈ rest
    · rw [if_pos hx, if_pos (List.mem_cons.2 (Or.inr hx))]
    · rw [if_neg hx]
      by_cases hx0 : x = r0
      · subst hx0
        rw [if_pos (List.mem_cons_self _ _)]
        exact List.get?_set_eq_of_lt _ (hbnd _ (List.mem_cons_self _ _))
      · rw [if_neg (by simp [hx0, hx])]
        exact List.get?_set_ne _ _ (fun he => hx0 he.symm)

theorem JumpsInv_append (s : PlantState) (suffix : List Cell) (h : JumpsInv s) :
    JumpsInv { s with code := s.code ++ suffix } := by
  obtain ⟨h1, h2, h2f, h3, h4⟩ := h
  refine ⟨?_, h2, h2f, h3, ?_⟩
  · intro p hp
    simp only [List.length_append]
    have := h1 p hp
    omega
  · intro p hp
    rcases h4 p hp with hf | ⟨t, ht, hc⟩
    · exact Or.inl hf
    · refine Or.inr ⟨t, ht, ?_⟩
      rw [List.get?_append (h1 p hp)]
      exact hc

theorem plant_jump_labelMap (s : PlantState) (nm : String) :
    (plant_jump_instruction s nm).labelMap = s.labelMap := by
  unfold plant_jump_instruction
  cases lookupLabel s.labelMap nm <;> rfl

theorem JumpsInv_jump (s : PlantState) (nm : String) (h : JumpsInv s) :
    JumpsInv (plant_jump_instruction s nm) := by
  obtain ⟨h1, h2, h2f, h3, h4⟩ := h
  have hsnds : ∀ y ∈ s.jumps.map Prod.snd, y < s.code.length := by
    intro y hy
    obtain ⟨p, hp, hpy⟩ := List.mem_map.1 hy
    exact hpy ▸ h1 p hp
  unfold plant_jump_instruction
  cases hl : lookupLabel s.labelMap nm with
  | some target =>
    dsimp only
    refine ⟨?_, ?_, h2f, ?_, ?_⟩
    · intro p hp
      rw [List.length_set, List.length_append]
      rcases List.mem_append.1 hp with hp1 | hp1
      · have := h1 p hp1; simp at *; omega
      · simp at hp1
        subst hp1
        simp
    · rw [List.map_append]
      simp only [List.map_cons, List.map_nil]
      rw [List.nodup_append]
      refine ⟨h2, List.nodup_singleton _, ?_⟩
      intro y hy
      have := hsnds y hy
      simp
      omega
    · intro p hp
      obtain ⟨hpj, hpl⟩ := h3 p hp
      exact ⟨List.mem_append.2 (Or.inl hpj), hpl⟩
    · intro p hp
      rcases List.mem_append.1 hp with hp1 | hp1
      · rcases h4 p hp1 with hf | ⟨t, ht, hc⟩
        · exact Or.inl hf
        · refine Or.inr ⟨t, ht, ?_⟩
          have hne : s.code.length ≠ p.2 := by
            have := h1 p hp1; omega
          rw [List.get?_set_ne _ _ hne, List.get?_append (h1 p hp1)]
          exact hc
      · simp at hp1
        subst hp1
        refine Or.inr ⟨target, hl, ?_⟩
        rw [List.get?_set_eq_of_lt]
        rw [List.length_append]
        simp
  | none =>
    dsimp only
    refine ⟨?_, ?_, ?_, ?_, ?_⟩
    · intro p hp
      rw [List.length_append]
      rcases List.mem_append.1 hp with hp1 | hp1
      · have := h1 p hp1; simp; omega
      · simp at hp1; subst hp1; simp
    · rw [List.map_append]
      simp only [List.map_cons, List.map_nil]
      rw [List.nodup_append]
      refine ⟨h2, List.nodup_singleton _, ?_⟩
      intro y hy
      have := hsnds y hy
      simp
      omega
    · rw [List.map_append]
      simp only [List.map_cons, List.map_nil]
      rw [List.nodup_append]
      refine ⟨h2f, List.nodup_singleton _, ?_⟩
      intro y hy
      obtain ⟨p, hp, hpy⟩ := List.mem_map.1 hy
      have := h1 p (h3 p hp).1
      simp
      omega
    · intro p hp
      rcases List.mem_append.1 hp with hp1 | hp1
      · obtain ⟨hpj, hpl⟩ := h3 p hp1
        exact ⟨List.mem_append.2 (Or.inl hpj), hpl⟩
      · simp at hp1
        subst hp1
        exact ⟨List.mem_append.2 (Or.inr (by simp)), hl⟩
    · intro p hp
      rcases List.mem_append.1 hp with hp1 | hp1
      · rcases h4 p hp1 with hf | ⟨t, ht, hc⟩
        · exact Or.inl (List.mem_append.2 (Or.inl hf))
        · refine Or.inr ⟨t, ht, ?_⟩
          rw [List.get?_append (h1 p hp1)]
          exact hc
      · simp at hp1
        subst hp1
        exact Or.inl (List.mem_append.2 (Or.inr (by simp)))


theorem JumpsInv_label (s : PlantState) (inst : Instr) (nm : String) (s2 : PlantState)
    (hval : inst.value = some nm)
    (hfresh : lookupLabel s.labelMap nm = none)
    (hinv : JumpsInv s)
    (h : plant_label s inst = .ok s2) :
    JumpsInv s2 ∧ s2.labelMap = (nm, s.code.length) :: s.labelMap := by
  obtain ⟨h1, h2, h2f, h3, h4⟩ := hinv
  unfold plant_label at h
  rw [hval] at h
  dsimp only at h
  injection h with h
  subst h
  set pos := s.code.length with hpos
  set refs := ((s.forwardRefs.filter (fun p => p.1 = nm)).map (fun p => p.2)) with hrefs
  have hrefs_sub : ∀ r ∈ refs, ∃ p, p ∈ s.forwardRefs ∧ p.1 = nm ∧ p.2 = r := by
    intro r hr
    obtain ⟨p, hp, hpr⟩ := List.mem_map.1 hr
    obtain ⟨hpm, hpq⟩ := List.mem_filter.1 hp
    exact ⟨p, hpm, by simpa using hpq, hpr⟩
  have hrefs_bnd : ∀ r ∈ refs, r < s.code.length := by
    intro r hr
    obtain ⟨p, hpm, _, hpr⟩ := hrefs_sub r hr
    exact hpr ▸ h1 p (h3 p hpm).1
  have hrefs_nd : refs.Nodup := by
    have hsub : ((s.forwardRefs.filter (fun p => p.1 = nm)).map (fun p => p.2)).Sublist
        (s.forwardRefs.map (fun p => p.2)) := (List.filter_sublist _).map _
    exact hsub.nodup h2f
  have hlen : (refs.foldl
      (fun c r => c.set r (rawI64 ((pos : Int) - ((r : Int) + 1)))) s.code).length
      = s.code.length := foldl_set_length _ refs s.code
  have hget := foldl_set_get? (fun r => rawI64 ((pos : Int) - ((r : Int) + 1)))
    refs s.code hrefs_nd hrefs_bnd
  refine ⟨⟨?_, h2, ?_, ?_, ?_⟩, rfl⟩
  · intro p hp
    rw [hlen]
    exact h1 p hp
  · have hsub : ((s.forwardRefs.filter (fun p => ¬ p.1 = nm)).map Prod.snd).Sublist
        (s.forwardRefs.map Prod.snd) := (List.filter_sublist _).map _
    exact hsub.nodup h2f
  · intro p hp
    obtain ⟨hpm, hpq⟩ := List.mem_filter.1 hp
    have hpn : p.1 ≠ nm := by simpa using hpq
    refine ⟨(h3 p hpm).1, ?_⟩
    rw [lookupLabel_cons_ne _ _ _ _ hpn]
    exact (h3 p hpm).2
  · intro p hp
    rcases h4 p hp with hf | ⟨t, ht, hc⟩
    · by_cases hpn : p.1 = nm
      · refine Or.inr ⟨pos, ?_, ?_⟩
        · rw [hpn]; exact lookupLabel_cons_eq _ _ _
        · rw [hget p.2, if_pos ?memref]
          case memref =>
            refine List.mem_map.2 ⟨p, ?_, rfl⟩
            refine List.mem_filter.2 ⟨hf, by simpa using hpn⟩
      · refine Or.inl ?_
        refine List.mem_filter.2 ⟨hf, by simpa using hpn⟩
    · have hpn : p.1 ≠ nm := by
        intro he
        rw [he, hfresh] at ht
        cases ht
      refine Or.inr ⟨t, ?_, ?_⟩
      · rw [lookupLabel_cons_ne _ _ _ _ hpn]
        exact ht
      · rw [hget p.2, if_neg ?notref]
        · exact hc
        case notref =>
          intro hmem
          obtain ⟨q, hqm, hq1, hq2⟩ := hrefs_sub p.2 hmem
          have hqj : q ∈ s.jumps := (h3 q hqm).1
          have : p = q := List.inj_on_of_nodup_map h2 hp hqj hq2.symm
          exact hpn (this ▸ hq1)


theorem ppPlantInstruction_other (opmap : Opcode → Option Handler)
    (names : String → Option Nat) (s : PlantState) (opcode : Opcode) (inst : Instr)
    (s2 : PlantState)
    (hL : opcode ≠ .LABEL) (hG : opcode ≠ .GOTO) (hI : opcode ≠ .IF_NOT)
    (h : ppPlantInstruction opmap names s opcode inst = .ok s2) :
    s2.labelMap = s.labelMap ∧ s2.forwardRefs = s.forwardRefs ∧ s2.jumps = s.jumps ∧
    ∃ suffix, s2.code = s.code ++ suffix := by
  unfold ppPlantInstruction at h
  rw [if_neg hL] at h
  cases hm : opmap opcode <;> rw [hm] at h
  · cases h
  · cases opcode <;>
      first
      | exact absurd rfl hL
      | exact absurd rfl hG
      | exact absurd rfl hI
      | (simp only [bind, Except.bind, calc_offset] at h
         repeat' split at h
         all_goals
           try cases h
         all_goals
           first
           | exact ⟨rfl, rfl, rfl, _, rfl⟩
           | exact ⟨rfl, rfl, rfl, _, List.append_assoc _ _ _⟩)


theorem ppPlantInstruction_jump_case (opmap : Opcode → Option Handler)
    (names : String → Option Nat) (s : PlantState) (opcode : Opcode) (inst : Instr)
    (s2 : PlantState)
    (hOp : opcode = .GOTO ∨ opcode = .IF_NOT)
    (hinv : JumpsInv s)
    (h : ppPlantInstruction opmap names s opcode inst = .ok s2) :
    JumpsInv s2 ∧ s2.labelMap = s.labelMap := by
  rcases hOp with hOp | hOp <;> subst hOp <;>
  · unfold ppPlantInstruction at h
    rw [if_neg (by decide)] at h
    cases hm : opmap _ <;> rw [hm] at h
    · cases h
    · dsimp only at h
      cases hv : inst.value <;> rw [hv] at h
      · cases h
      · injection h with h2
        subst h2
        refine ⟨JumpsInv_jump _ _ (JumpsInv_append s _ hinv), plant_jump_labelMap _ _⟩

theorem ppPlantOne_inv (tbl : String → Option (Opcode × Opcode))
    (opmap : Opcode → Option Handler) (names : String → Option Nat)
    (deps : String → Option Bool) (s : PlantState) (inst : Instr) (s2 : PlantState)
    (hinv : JumpsInv s)
    (hfresh : ∀ nm, chosenOpcode tbl deps inst = some .LABEL → inst.value = some nm →
      lookupLabel s.labelMap nm = none)
    (h : ppPlantOne tbl opmap names deps s inst = .ok s2) :
    JumpsInv s2 ∧
    ∀ x, lookupLabel s2.labelMap x = lookupLabel s.labelMap x ∨
      (chosenOpcode tbl deps inst = some .LABEL ∧ inst.value = some x) := by
  unfold ppPlantOne at h
  cases ht : tbl inst.type <;> rw [ht] at h
  · cases h
  case some opcodes =>
    dsimp only at h
    have hco : chosenOpcode tbl deps inst =
        some (if (match inst.name with
                  | some nm => (deps nm).getD false
                  | none => false) = true then opcodes.2 else opcodes.1) := by
      simp [chosenOpcode, ht]
    set oc := (if (match inst.name with
                   | some nm => (deps nm).getD false
                   | none => false) = true then opcodes.2 else opcodes.1) with hoc
    by_cases hL : oc = .LABEL
    · rw [hL] at h hco
      unfold ppPlantInstruction at h
      rw [if_pos rfl] at h
      cases hv : inst.value with
      | none =>
        unfold plant_label at h
        rw [hv] at h
        cases h
      | some nm =>
        have hfr := hfresh nm hco hv
        obtain ⟨hinv2, hlab⟩ := JumpsInv_label s inst nm s2 hv hfr hinv h
        refine ⟨hinv2, fun x => ?_⟩
        by_cases hx : x = nm
        · subst hx
          exact Or.inr ⟨hco, rfl⟩
        · rw [hlab, lookupLabel_cons_ne _ _ _ _ hx]
          exact Or.inl rfl
    · by_cases hG : oc = .GOTO ∨ oc = .IF_NOT
      · obtain ⟨hinv2, hlab⟩ := ppPlantInstruction_jump_case opmap names s oc inst s2 hG hinv h
        exact ⟨hinv2, fun x => Or.inl (by rw [hlab])⟩
      · push_neg at hG
        obtain ⟨hlab, hfwd, hjmp, suffix, hcode⟩ :=
          ppPlantInstruction_other opmap names s oc inst s2 hL hG.1 hG.2 h
        have hinv2 : JumpsInv s2 := by
          have happ := JumpsInv_append s suffix hinv
          obtain ⟨a1, a2, a3, a4, a5⟩ := happ
          refine ⟨?_, ?_, ?_, ?_, ?_⟩
          · intro p hp; rw [hcode]; exact a1 p (hjmp ▸ hp)
          · rw [hjmp]; exact a2
          · rw [hfwd]; exact a3
          · intro p hp
            rw [hjmp, hlab]
            exact a4 p (hfwd ▸ hp)
          · intro p hp
            rw [hfwd, hlab, hcode]
            exact a5 p (hjmp ▸ hp)
        exact ⟨hinv2, fun x => Or.inl (by rw [hlab])⟩


theorem ppFold_inv (tbl : String → Option (Opcode × Opcode))
    (opmap : Opcode → Option Handler) (names : String → Option Nat)
    (deps : String → Option Bool) :
    ∀ (instrs : List Instr) (s s2 : PlantState),
      JumpsInv s →
      (plantedLabels tbl deps instrs).Nodup →
      (∀ nm ∈ plantedLabels tbl deps instrs, lookupLabel s.labelMap nm = none) →
      List.foldlM (ppPlantOne tbl opmap names deps) s instrs = .ok s2 →
      JumpsInv s2 := by
  intro instrs
  induction instrs with
  | nil =>
    intro s s2 hinv _ _ h
    simp only [List.foldlM_nil] at h
    cases h
    exact hinv
  | cons inst tl ih =>
    intro s s2 hinv hnd hfr h
    rw [List.foldlM_cons] at h
    cases h1 : ppPlantOne tbl opmap names deps s inst with
    | error e =>
      rw [h1] at h
      simp [Bind.bind, Except.bind] at h
    | ok s1 =>
      rw [h1] at h
      simp only [Bind.bind, Except.bind] at h
      have hlabels : plantedLabels tbl deps (inst :: tl) =
          (match chosenOpcode tbl deps inst with
           | some .LABEL => inst.value
           | _ => none).toList ++ plantedLabels tbl deps tl := by
        unfold plantedLabels
        simp only [List.filterMap_cons]
        cases hco : chosenOpcode tbl deps inst with
        | none => simp
        | some oc =>
          cases oc <;> simp <;> cases hv : inst.value <;> simp
      have hstep := ppPlantOne_inv tbl opmap names deps s inst s1 hinv ?fresh h1
      case fresh =>
        intro nm hcl hv
        apply hfr
        rw [hlabels, hcl, hv]
        simp
      obtain ⟨hinv1, hlab⟩ := hstep
      refine ih s1 s2 hinv1 ?_ ?_ h
      · rw [hlabels] at hnd
        exact (List.nodup_append.1 hnd).2.1
      · intro nm hm
        rcases hlab nm with he | ⟨hcl, hv⟩
        · rw [he]
          apply hfr
          rw [hlabels]
          exact List.mem_append.2 (Or.inr hm)
        · exfalso
          rw [hlabels, hcl, hv] at hnd
          simp only [Option.toList] at hnd
          have hd := (List.nodup_append.1 hnd).2.2
          exact hd (by simp) hm


/-- Supporting analysis for C7 (parametric in the type-string table and
opcode map, because no table present in src/ lets a jump reach this
code): for any tables under which ParseFunctionObject::parse succeeds
on a program with distinct label names, every recorded GOTO or IF_NOT
jump resolves so that the operand cell at position ref holds exactly
target - (ref + 1) — backward jumps resolved at emission, forward jumps
patched with the same formula when their LABEL is planted. -/
theorem jump_operands_resolve (tbl : String → Option (Opcode × Opcode))
    (opmap : Opcode → Option Handler) (names : String → Option Nat)
    (deps : String → Option Bool) (nlocals nparams : Int)
    (instrs : List Instr) (out : PlantState)
    (hok : ppParse tbl opmap names deps nlocals nparams instrs = .ok out)
    (hnd : (plantedLabels tbl deps instrs).Nodup) :
    ∀ lbl ref, (lbl, ref) ∈ out.jumps →
      ∃ t, lookupLabel out.labelMap lbl = some t ∧
        out.code.get? ref = some (rawI64 ((t : Int) - ((ref : Int) + 1))) := by
  unfold ppParse at hok
  simp only [Bind.bind, Except.bind] at hok
  set s0 : PlantState :=
    { nlocals := nlocals, nparams := nparams, code := [],
      labelMap := [], forwardRefs := [], jumps := [] } with hs0
  cases hf : List.foldlM (ppPlantOne tbl opmap names deps) s0 instrs with
  | error e => rw [hf] at hok; cases hok
  | ok sf =>
    rw [hf] at hok
    dsimp only at hok
    have hinv0 : JumpsInv s0 := by
      refine ⟨?_, ?_, ?_, ?_, ?_⟩ <;> simp [hs0, JumpsInv, lookupLabel]
    have hfr0 : ∀ nm ∈ plantedLabels tbl deps instrs, lookupLabel s0.labelMap nm = none := by
      intro nm _
      rfl
    have hinv := ppFold_inv tbl opmap names deps instrs s0 sf hinv0 hnd hfr0 hf
    obtain ⟨h1, _, _, _, h4⟩ := hinv
    by_cases hemp : sf.forwardRefs.isEmpty
    · rw [if_neg (by simp [hemp])] at hok
      cases hh : opmap .HALT <;> rw [hh] at hok
      · cases hok
      · injection hok with hok
        subst hok
        intro lbl ref hmem
        rcases h4 (lbl, ref) hmem with hfwd | ⟨t, ht, hc⟩
        · rw [List.isEmpty_iff] at hemp
          rw [hemp] at hfwd
          cases hfwd
        · refine ⟨t, ht, ?_⟩
          dsimp only at hc ⊢
          rw [List.get?_append (h1 (lbl, ref) hmem)]
          exact hc
    · rw [if_pos (by simp [hemp])] at hok
      cases hok


/-- Claim C7: no GOTO or IF_NOT jump can be planted by the staged
sources at all, so the claimed resolution formula holds only vacuously.
Planting the spec's jump program fails at string_to_opcode, which has
no row for `goto` (nor `if.not` nor `label`); and even at the opcode
level the map Machine::threaded_impl registers has no GOTO or IF_NOT
entry, so ParseFunctionObject::plant_instruction throws before
plant_jump_instruction or plant_label is ever reached.  The patching
machinery itself implements the spec's formula (jump_operands_resolve)
but is dead code. -/
theorem goto_jump_unplantable :
    ppParse srcOpcodeTable machineOpcodeMap (fun _ => none) (fun _ => none) 0 0 jpScProgram =
      .error "Unknown instruction type: goto" ∧
    string_to_opcode "goto" = .error "Unknown instruction type: goto" ∧
    string_to_opcode "if.not" = .error "Unknown instruction type: if.not" ∧
    string_to_opcode "label" = .error "Unknown instruction type: label" ∧
    machineOpcodeMap .GOTO = none ∧
    machineOpcodeMap .IF_NOT = none ∧
    (∀ (s : PlantState) (inst : Instr),
       ppPlantInstruction machineOpcodeMap (fun _ => none) s .GOTO inst =
         .error "Opcode not found in map") ∧
    (∀ (s : PlantState) (inst : Instr),
       ppPlantInstruction machineOpcodeMap (fun _ => none) s .IF_NOT inst =
         .error "Opcode not found in map") :=
  ⟨rfl, rfl, rfl, rfl, rfl, rfl, fun s inst => rfl, fun s inst => rfl⟩

end Nutmeg
